import Mathlib

/-!
Verification of `timestamp_format.c` of c-timestamp.

A shallow embedding of `rdn_to_ymd`, `timestamp_valid` and `timestamp_format`
from `src/timestamp_format.c`, with the reference notions (proleptic Gregorian
calendar, zero-padded decimal rendering) the statements are measured against.

Machine integers are `Nat`/`Int` with the reduction modulo `2^w` written out at
every place where the C code narrows a value.  The destination buffer is a map
from index to byte together with its capacity `len`; the running buffer state of
`timestamp_format` is an `Option Buf`, where `none` records that a store went
outside the capacity (undefined behaviour in C).
-/

namespace CTimestamp

/-! ## Machine arithmetic -/

/-- Narrowing to `uint16_t`. -/
def u16 (n : Nat) : Nat := n % 65536

/-- Narrowing to `uint32_t`. -/
def u32 (n : Nat) : Nat := n % 4294967296

/-- Two's-complement wraparound of a signed 64-bit result. -/
def wrap64 (x : Int) : Int :=
  (x + 9223372036854775808) % 18446744073709551616 - 9223372036854775808

/-- Two's-complement wraparound of a signed 32-bit (`int`) result. -/
def wrap32 (x : Int) : Int := (x + 2147483648) % 4294967296 - 2147483648

/-- Conversion of a signed value to `uint32_t`. -/
def u32i (x : Int) : Nat := (x % 4294967296).toNat

/-- Conversion of a signed value to `uint64_t`. -/
def u64i (x : Int) : Nat := (x % 18446744073709551616).toNat

/-! ## Calendar converter (`src/timestamp_format.c`, lines 28-64) -/

/-- The table `DayOffset[13]`. -/
def DayOffset : List Nat := [0, 306, 337, 0, 31, 61, 92, 122, 153, 184, 214, 245, 275]

/-- The function `rdn_to_ymd`: `rdn` is the `uint32_t` argument, the result is
`(*yp, *mp, *dp)`.  The result is `none` when the read `DayOffset[m]` would fall
outside the 13-entry table. -/
def rdn_to_ymd (rdn : Nat) : Option (Nat × Nat × Nat) :=
  let d := u32 (rdn + 305)
  let y := u16 (400 * (d / 146097))
  let d := d % 146097
  let n100 := u16 (d / 36524)
  let y := u16 (y + 100 * n100)
  let d := d % 36524
  let y := u16 (y + 4 * (d / 1461))
  let d := d % 1461
  let n1 := u16 (d / 365)
  let y := u16 (y + n1)
  let d := d % 365
  let yd : Nat × Nat := if n100 = 4 ∨ n1 = 4 then (y, 366) else (u16 (y + 1), u32 (d + 1))
  let y := yd.1
  let d := yd.2
  let m := u16 (u32 (5 * d + 456) / 153)
  let ym : Nat × Nat := if m > 12 then (y, u16 (m - 12)) else (u16 (y + 65535), m)
  let y := ym.1
  let m := ym.2
  match DayOffset[m]? with
  | none => none
  | some off => some (y, m, u16 (u32 (d + 4294967296 - off)))

/-! ## Timestamp encoder (`src/timestamp_format.c`, lines 66-177) -/

/-- Modelled from the spec: the header `timestamp.h` declaring `timestamp_t` is not among
the sources.  The spec gives `seconds` as a signed 64-bit count and `nanoseconds`,
`offset_minutes` as signed integers; the fields are integers here and `timestamp_t.wf`
states the widths. -/
structure timestamp_t where
  sec : Int
  nsec : Int
  offset : Int

/-- Modelled from the spec: the field widths of `timestamp_t` (`timestamp.h` is not among the
sources): `sec` is a signed 64-bit value, `nsec` and `offset` are signed integers of at most
32 bits. -/
def timestamp_t.wf (t : timestamp_t) : Prop :=
  -9223372036854775808 ≤ t.sec ∧ t.sec ≤ 9223372036854775807 ∧
  -2147483648 ≤ t.nsec ∧ t.nsec ≤ 2147483647 ∧
  -2147483648 ≤ t.offset ∧ t.offset ≤ 2147483647

instance (t : timestamp_t) : Decidable t.wf := by
  unfold timestamp_t.wf
  infer_instance

/-- The constant `MIN_SEC`. -/
def MIN_SEC : Int := -62135596800

/-- The constant `MAX_SEC`. -/
def MAX_SEC : Int := 253402300799

/-- The constant `EPOCH`. -/
def EPOCH : Int := 62135683200

/-- The function `timestamp_valid`; the sum `tsp->sec + tsp->offset * 60` is taken with
wraparound (the product in `int`, the sum in `int64_t`). -/
def timestamp_valid (tsp : timestamp_t) : Nat :=
  let sec := wrap64 (tsp.sec + wrap32 (tsp.offset * 60))
  if sec < MIN_SEC ∨ sec > MAX_SEC ∨ tsp.nsec < 0 ∨ tsp.nsec > 999999999 ∨
      tsp.offset < -1439 ∨ tsp.offset > 1439 then 0 else 1

/-- The bytes reachable from `dst`, by index. -/
abbrev Buf := Nat → Nat

/-- The buffer `b` with byte `v` (narrowed to `unsigned char`) at index `i`. -/
def upd (b : Buf) (i v : Nat) : Buf := fun j => if j = i then v % 256 else b j

/-- The store `p[i] = v` into a buffer of capacity `len`; a store outside the capacity, or
after one, leaves no defined state. -/
def poke (len : Nat) (b : Option Buf) (i v : Nat) : Option Buf :=
  match b with
  | none => none
  | some b => if i < len then some (upd b i v) else none

/-- The function `timestamp_format`: `dst` and `len` are the buffer and its capacity, the
result is the returned `size_t` and the buffer after the call, or `none` when the call has no
defined behaviour (a store outside the capacity, a read outside `DayOffset`).  The pointer
`p` is kept as an index into `dst`. -/
def timestamp_format (dst : Buf) (len : Nat) (tsp : timestamp_t) : Option (Nat × Buf) :=
  if timestamp_valid tsp = 0 then some (0, dst) else
  let need := 21
  let need := if tsp.offset ≠ 0 then need + 5 else need
  let f := u32i tsp.nsec
  let r : Nat × Nat × Nat :=
    if f = 0 then (f, 0, need)
    else
      let ff : Nat × Nat :=
        if f % 1000000 = 0 then (f / 1000000, 4)
        else if f % 1000 = 0 then (f / 1000, 7)
        else (f, 10)
      (ff.1, ff.2, need + ff.2)
  let f := r.1
  let flen := r.2.1
  let need := r.2.2
  if need > len then some (0, dst) else
  let sec := u64i (wrap64 (wrap64 (tsp.sec + wrap32 (tsp.offset * 60)) + EPOCH))
  let rdn := u32 (sec / 86400)
  match rdn_to_ymd rdn with
  | none => none
  | some (y, m, d) =>
    let b : Option Buf := some dst
    let p := 0
    let b := poke len b (p + 3) (48 + y % 10)
    let y := y / 10
    let b := poke len b (p + 2) (48 + y % 10)
    let y := y / 10
    let b := poke len b (p + 1) (48 + y % 10)
    let y := y / 10
    let b := poke len b (p + 0) (48 + y % 10)
    let p := p + 4
    let b := poke len b (p + 2) (48 + m % 10)
    let m := m / 10
    let b := poke len b (p + 1) (48 + m % 10)
    let b := poke len b (p + 0) 45
    let p := p + 3
    let b := poke len b (p + 2) (48 + d % 10)
    let d := d / 10
    let b := poke len b (p + 1) (48 + d % 10)
    let b := poke len b (p + 0) 45
    let p := p + 3
    let v := u32 (sec % 86400)
    let b := poke len b (p + 8) (48 + v % 10)
    let v := v / 10
    let b := poke len b (p + 7) (48 + v % 6)
    let v := v / 6
    let b := poke len b (p + 6) 58
    let b := poke len b (p + 5) (48 + v % 10)
    let v := v / 10
    let b := poke len b (p + 4) (48 + v % 6)
    let v := v / 6
    let b := poke len b (p + 3) 58
    let b := poke len b (p + 2) (48 + v % 10)
    let v := v / 10
    let b := poke len b (p + 1) (48 + v % 10)
    let b := poke len b (p + 0) 84
    let p := p + 9
    let bp : Option Buf × Nat :=
      if flen ≠ 0 then
        let bf : Option Buf × Nat :=
          if flen > 7 then
            let b := poke len b (p + 9) (48 + f % 10)
            let f := f / 10
            let b := poke len b (p + 8) (48 + f % 10)
            let f := f / 10
            let b := poke len b (p + 7) (48 + f % 10)
            let f := f / 10
            (b, f)
          else (b, f)
        let b := bf.1
        let f := bf.2
        let bf : Option Buf × Nat :=
          if flen > 4 then
            let b := poke len b (p + 6) (48 + f % 10)
            let f := f / 10
            let b := poke len b (p + 5) (48 + f % 10)
            let f := f / 10
            let b := poke len b (p + 4) (48 + f % 10)
            let f := f / 10
            (b, f)
          else (b, f)
        let b := bf.1
        let f := bf.2
        let b := poke len b (p + 3) (48 + f % 10)
        let f := f / 10
        let b := poke len b (p + 2) (48 + f % 10)
        let f := f / 10
        let b := poke len b (p + 1) (48 + f % 10)
        let b := poke len b (p + 0) 46
        (b, p + flen)
      else (b, p)
    let b := bp.1
    let p := bp.2
    let bp : Option Buf × Nat :=
      if tsp.offset = 0 then
        let b := poke len b p 90
        (b, p + 1)
      else
        let bv : Option Buf × Nat :=
          if tsp.offset < 0 then
            let b := poke len b (p + 0) 45
            (b, u32i (wrap32 (-tsp.offset)))
          else
            let b := poke len b (p + 0) 43
            (b, u32i tsp.offset)
        let b := bv.1
        let v := bv.2
        let b := poke len b (p + 5) (48 + v % 10)
        let v := v / 10
        let b := poke len b (p + 4) (48 + v % 6)
        let v := v / 6
        let b := poke len b (p + 3) 58
        let b := poke len b (p + 2) (48 + v % 10)
        let v := v / 10
        let b := poke len b (p + 1) (48 + v % 10)
        (b, p + 6)
    let b := bp.1
    let p := bp.2
    let b := poke len b p 0
    b.map fun b => (p, b)

/-! ## Reference notions used in the statements -/

/-- Gregorian leap-year rule: divisible by 4 and not by 100, or divisible by 400. -/
def isLeapYear (y : Nat) : Bool := decide ((y % 4 = 0 ∧ y % 100 ≠ 0) ∨ y % 400 = 0)

/-- Length of month `m` in year `y`. -/
def monthLength (y m : Nat) : Nat :=
  if m = 2 then (if isLeapYear y then 29 else 28)
  else if m = 4 ∨ m = 6 ∨ m = 9 ∨ m = 11 then 30 else 31

/-- Number of days in the months of year `y` before month `m`. -/
def daysBeforeMonth (y m : Nat) : Nat :=
  ((List.range (m - 1)).map (fun k => monthLength y (k + 1))).sum

/-- Rata Die number of the date `y-m-d`, by the reference formula
`365*(y-1) + ⌊(y-1)/4⌋ - ⌊(y-1)/100⌋ + ⌊(y-1)/400⌋ + (days before month m) + d`. -/
def rataDie (y m d : Nat) : Int :=
  365 * ((y : Int) - 1) + ((y : Int) - 1) / 4 - ((y : Int) - 1) / 100 + ((y : Int) - 1) / 400
    + (daysBeforeMonth y m : Int) + (d : Int)

/-- A real proleptic Gregorian date with year in `[1, 9999]`. -/
def validDate (y m d : Nat) : Prop :=
  1 ≤ y ∧ y ≤ 9999 ∧ 1 ≤ m ∧ m ≤ 12 ∧ 1 ≤ d ∧ d ≤ monthLength y m

instance (y m d : Nat) : Decidable (validDate y m d) := by
  unfold validDate
  infer_instance

/-- Lexicographic order on dates. -/
def dateLt (y m d y' m' d' : Nat) : Prop :=
  y < y' ∨ (y = y' ∧ (m < m' ∨ (m = m' ∧ d < d')))

/-- Zero-padded decimal rendering of `n` in `w` ASCII digits, most significant first. -/
def pad : Nat → Nat → List Nat
  | 0, _ => []
  | w + 1, n => pad w (n / 10) ++ [48 + n % 10]

/-- Numeric value of a list of ASCII digits, most significant first. -/
def digitsValue (l : List Nat) : Nat := l.foldl (fun acc c => 10 * acc + (c - 48)) 0

/-- An ASCII digit `'0'..'9'`. -/
def isDigit (c : Nat) : Prop := 48 ≤ c ∧ c ≤ 57

instance (c : Nat) : Decidable (isDigit c) := by
  unfold isDigit
  infer_instance

/-- The `n` bytes of `b` from index `i` on. -/
def bytes (b : Buf) (i n : Nat) : List Nat := (List.range n).map (fun k => b (i + k))

/-- Bytewise lexicographic order, strict: `lexLt l1 l2` is `true` when `l1` comes before
`l2`. -/
def lexLt : List Nat → List Nat → Bool
  | [], [] => false
  | [], _ :: _ => true
  | _ :: _, [] => false
  | a :: as, b :: bs => decide (a < b) || (decide (a = b) && lexLt as bs)

/-- The bytes of an ASCII text. -/
def ascii (s : String) : List Nat := s.toList.map Char.toNat

/-- The local second count `sec + 60*offset`, as an exact integer. -/
def localSec (t : timestamp_t) : Int := t.sec + 60 * t.offset

/-- A valid timestamp: local instant within `[0001-01-01T00:00:00, 9999-12-31T23:59:59]`,
`nsec` in `[0, 999999999]`, `offset` in `[-1439, 1439]`. -/
def validTimestamp (t : timestamp_t) : Prop :=
  -62135596800 ≤ localSec t ∧ localSec t ≤ 253402300799 ∧
  0 ≤ t.nsec ∧ t.nsec ≤ 999999999 ∧ -1439 ≤ t.offset ∧ t.offset ≤ 1439

instance (t : timestamp_t) : Decidable (validTimestamp t) := by
  unfold validTimestamp
  infer_instance

/-- Whole days of the local instant since 0001-01-01. -/
def localDays (t : timestamp_t) : Nat := ((localSec t + 62135596800) / 86400).toNat

/-- Second of the day of the local instant. -/
def localSod (t : timestamp_t) : Nat := ((localSec t + 62135596800) % 86400).toNat

/-- Bytes taken by the fractional part, the dot included: 0, 4, 7 or 10. -/
def fracSize (nsec : Int) : Nat :=
  if nsec = 0 then 0
  else if nsec % 1000000 = 0 then 4
  else if nsec % 1000 = 0 then 7
  else 10

/-- The required size `R`: 21 bytes (terminator included), 5 more for a numeric offset,
and the fractional part. -/
def requiredSize (t : timestamp_t) : Nat :=
  21 + (if t.offset ≠ 0 then 5 else 0) + fracSize t.nsec

/-- Reference rendering of `YYYY-MM-DDThh:mm:ss` for the date `y-m-d` and second of day
`sod`. -/
def renderDateTime (y m d sod : Nat) : List Nat :=
  pad 4 y ++ [45] ++ pad 2 m ++ [45] ++ pad 2 d ++ [84] ++
    pad 2 (sod / 3600) ++ [58] ++ pad 2 (sod / 60 % 60) ++ [58] ++ pad 2 (sod % 60)

/-- Reference rendering of the fractional part: nothing, or a dot and 3, 6 or 9 digits. -/
def renderFrac (nsec : Nat) : List Nat :=
  if nsec = 0 then []
  else if nsec % 1000000 = 0 then 46 :: pad 3 (nsec / 1000000)
  else if nsec % 1000 = 0 then 46 :: pad 6 (nsec / 1000)
  else 46 :: pad 9 nsec

/-- Reference rendering of the offset suffix: `Z`, or sign and `hh:mm` of the magnitude. -/
def renderOffset (offset : Int) : List Nat :=
  if offset = 0 then [90]
  else (if offset < 0 then 45 else 43) ::
    (pad 2 (offset.natAbs / 60) ++ [58] ++ pad 2 (offset.natAbs % 60))

/-! ## Auxiliary splitting of `rdn_to_ymd` -/

/-- The first half of `rdn_to_ymd` (lines 37-55): the pair `(y, d)` after the leap-day
branch. -/
def marchYear (rdn : Nat) : Nat × Nat :=
  let d := u32 (rdn + 305)
  let y := u16 (400 * (d / 146097))
  let d := d % 146097
  let n100 := u16 (d / 36524)
  let y := u16 (y + 100 * n100)
  let d := d % 36524
  let y := u16 (y + 4 * (d / 1461))
  let d := d % 1461
  let n1 := u16 (d / 365)
  let y := u16 (y + n1)
  let d := d % 365
  if n100 = 4 ∨ n1 = 4 then (y, 366) else (u16 (y + 1), u32 (d + 1))

/-- The second half of `rdn_to_ymd` (lines 57-63), from the pair `(y, d)`. -/
def monthPart (y d : Nat) : Option (Nat × Nat × Nat) :=
  let m := u16 (u32 (5 * d + 456) / 153)
  let ym : Nat × Nat := if m > 12 then (y, u16 (m - 12)) else (u16 (y + 65535), m)
  let y := ym.1
  let m := ym.2
  match DayOffset[m]? with
  | none => none
  | some off => some (y, m, u16 (u32 (d + 4294967296 - off)))

/-! ## Auxiliary splitting of `timestamp_format` -/

/-- Lines 95-103 of `timestamp_format`: from `f = tsp->nsec` and the running `need`, the
triple `(f, flen, need)`. -/
def fracLen (f need : Nat) : Nat × Nat × Nat :=
  if f = 0 then (f, 0, need)
  else
    let ff : Nat × Nat :=
      if f % 1000000 = 0 then (f / 1000000, 4)
      else if f % 1000 = 0 then (f / 1000, 7)
      else (f, 10)
    (ff.1, ff.2, need + ff.2)

/-- Lines 113-128 of `timestamp_format`: the stores of `YYYY-MM-DD` at `p`. -/
def fmtDate (len : Nat) (b : Option Buf) (p y m d : Nat) : Option Buf :=
  let b := poke len b (p + 3) (48 + y % 10)
  let y := y / 10
  let b := poke len b (p + 2) (48 + y % 10)
  let y := y / 10
  let b := poke len b (p + 1) (48 + y % 10)
  let y := y / 10
  let b := poke len b (p + 0) (48 + y % 10)
  let p := p + 4
  let b := poke len b (p + 2) (48 + m % 10)
  let m := m / 10
  let b := poke len b (p + 1) (48 + m % 10)
  let b := poke len b (p + 0) 45
  let p := p + 3
  let b := poke len b (p + 2) (48 + d % 10)
  let d := d / 10
  let b := poke len b (p + 1) (48 + d % 10)
  let b := poke len b (p + 0) 45
  b

/-- Lines 130-139 of `timestamp_format`: the stores of `Thh:mm:ss` at `p`, from the
second of day `v`. -/
def fmtTime (len : Nat) (b : Option Buf) (p v : Nat) : Option Buf :=
  let b := poke len b (p + 8) (48 + v % 10)
  let v := v / 10
  let b := poke len b (p + 7) (48 + v % 6)
  let v := v / 6
  let b := poke len b (p + 6) 58
  let b := poke len b (p + 5) (48 + v % 10)
  let v := v / 10
  let b := poke len b (p + 4) (48 + v % 6)
  let v := v / 6
  let b := poke len b (p + 3) 58
  let b := poke len b (p + 2) (48 + v % 10)
  let v := v / 10
  let b := poke len b (p + 1) (48 + v % 10)
  let b := poke len b (p + 0) 84
  b

/-- Lines 142-158 of `timestamp_format`: the stores of the fractional part at `p`; the
result is the buffer state and the advanced `p`. -/
def fmtFrac (len : Nat) (b : Option Buf) (p f flen : Nat) : Option Buf × Nat :=
  if flen ≠ 0 then
    let bf : Option Buf × Nat :=
      if flen > 7 then
        let b := poke len b (p + 9) (48 + f % 10)
        let f := f / 10
        let b := poke len b (p + 8) (48 + f % 10)
        let f := f / 10
        let b := poke len b (p + 7) (48 + f % 10)
        let f := f / 10
        (b, f)
      else (b, f)
    let b := bf.1
    let f := bf.2
    let bf : Option Buf × Nat :=
      if flen > 4 then
        let b := poke len b (p + 6) (48 + f % 10)
        let f := f / 10
        let b := poke len b (p + 5) (48 + f % 10)
        let f := f / 10
        let b := poke len b (p + 4) (48 + f % 10)
        let f := f / 10
        (b, f)
      else (b, f)
    let b := bf.1
    let f := bf.2
    let b := poke len b (p + 3) (48 + f % 10)
    let f := f / 10
    let b := poke len b (p + 2) (48 + f % 10)
    let f := f / 10
    let b := poke len b (p + 1) (48 + f % 10)
    let b := poke len b (p + 0) 46
    (b, p + flen)
  else (b, p)

/-- Lines 160-174 of `timestamp_format`: the stores of the offset suffix at `p`; the
result is the buffer state and the advanced `p`. -/
def fmtOffset (len : Nat) (b : Option Buf) (p : Nat) (offset : Int) : Option Buf × Nat :=
  if offset = 0 then
    let b := poke len b p 90
    (b, p + 1)
  else
    let bv : Option Buf × Nat :=
      if offset < 0 then
        let b := poke len b (p + 0) 45
        (b, u32i (wrap32 (-offset)))
      else
        let b := poke len b (p + 0) 43
        (b, u32i offset)
    let b := bv.1
    let v := bv.2
    let b := poke len b (p + 5) (48 + v % 10)
    let v := v / 10
    let b := poke len b (p + 4) (48 + v % 6)
    let v := v / 6
    let b := poke len b (p + 3) 58
    let b := poke len b (p + 2) (48 + v % 10)
    let v := v / 10
    let b := poke len b (p + 1) (48 + v % 10)
    (b, p + 6)

/-- Line 108 of `timestamp_format`: the value of `sec`, the local second count shifted by
`EPOCH` and converted to `uint64_t`. -/
def shiftedSec (tsp : timestamp_t) : Nat :=
  u64i (wrap64 (wrap64 (tsp.sec + wrap32 (tsp.offset * 60)) + EPOCH))

/-- Line 109 of `timestamp_format`: the value of `rdn`, the argument of `rdn_to_ymd`. -/
def dayNumber (tsp : timestamp_t) : Nat := u32 (shiftedSec tsp / 86400)

/-- The buffer `b` with the list `l` stored from index `p` on. -/
def blit (b : Buf) (p : Nat) (l : List Nat) : Buf :=
  fun j => if j < p then b j else (l[j - p]?).getD (b j)

/-! ## The calendar converter is correct -/

theorem rdn_to_ymd_eq (rdn : Nat) :
    rdn_to_ymd rdn = monthPart (marchYear rdn).1 (marchYear rdn).2 := rfl

theorem marchYear_decomp (x : Nat) (hx : x < 4294967296 - 305) (h2 : x + 305 < 146097 * 25) :
    ∃ q a b c e, q ≤ 24 ∧ a ≤ 3 ∧ b ≤ 24 ∧ c ≤ 3 ∧
      marchYear x = (400 * q + 100 * a + 4 * b + c + 1, e + 1) ∧
      x + 305 = 146097 * q + 36524 * a + 1461 * b + 365 * c + e ∧
      (e ≤ 364 ∨ (e = 365 ∧ c = 3 ∧ (b ≤ 23 ∨ a = 3))) := by
  have e1 : (x + 305) % 4294967296 = x + 305 := Nat.mod_eq_of_lt (by omega)
  simp only [marchYear, u16, u32, e1]
  have a1 := Nat.div_add_mod (x + 305) 146097
  have a2 := Nat.mod_lt (x + 305) (show 146097 > 0 by decide)
  generalize (x + 305) / 146097 = q at *
  generalize (x + 305) % 146097 = r at *
  have hq : q ≤ 24 := by omega
  have b1 := Nat.div_add_mod r 36524
  have b2 := Nat.mod_lt r (show 36524 > 0 by decide)
  generalize r / 36524 = n100 at *
  generalize r % 36524 = r2 at *
  have hn100 : n100 ≤ 4 := by omega
  have c1 := Nat.div_add_mod r2 1461
  have c2 := Nat.mod_lt r2 (show 1461 > 0 by decide)
  generalize r2 / 1461 = n4 at *
  generalize r2 % 1461 = r3 at *
  have hn4 : n4 ≤ 24 := by omega
  have d1 := Nat.div_add_mod r3 365
  have d2 := Nat.mod_lt r3 (show 365 > 0 by decide)
  generalize r3 / 365 = n1 at *
  generalize r3 % 365 = r4 at *
  have hn1 : n1 ≤ 4 := by omega
  have f1 : 400 * q % 65536 = 400 * q := Nat.mod_eq_of_lt (by omega)
  have f2 : n100 % 65536 = n100 := Nat.mod_eq_of_lt (by omega)
  have f3 : (400 * q + 100 * n100) % 65536 = 400 * q + 100 * n100 := Nat.mod_eq_of_lt (by omega)
  have f4 : (400 * q + 100 * n100 + 4 * n4) % 65536 = 400 * q + 100 * n100 + 4 * n4 :=
    Nat.mod_eq_of_lt (by omega)
  have f5 : n1 % 65536 = n1 := Nat.mod_eq_of_lt (by omega)
  have f6 : (400 * q + 100 * n100 + 4 * n4 + n1) % 65536 = 400 * q + 100 * n100 + 4 * n4 + n1 :=
    Nat.mod_eq_of_lt (by omega)
  have f7 : (400 * q + 100 * n100 + 4 * n4 + n1 + 1) % 65536
      = 400 * q + 100 * n100 + 4 * n4 + n1 + 1 := Nat.mod_eq_of_lt (by omega)
  have f8 : (r4 + 1) % 4294967296 = r4 + 1 := Nat.mod_eq_of_lt (by omega)
  simp only [f1, f2, f3, f4, f5, f6, f7, f8]
  clear f1 f2 f3 f4 f5 f6 f7 f8 e1
  by_cases hA : n100 = 4
  · subst hA
    have : r2 = 0 := by omega
    subst this
    have : n4 = 0 := by omega
    subst this
    have : r3 = 0 := by omega
    subst this
    have : n1 = 0 := by omega
    subst this
    refine ⟨q, 3, 24, 3, 365, hq, by omega, by omega, by omega, ?_, by omega, by omega⟩
    simp
  · by_cases hB : n1 = 4
    · subst hB
      have h3 : n100 ≤ 3 := by omega
      have h4 : n4 ≤ 23 := by omega
      refine ⟨q, n100, n4, 3, 365, hq, h3, by omega, by omega, ?_, by omega, by omega⟩
      simp
    · have h3 : n100 ≤ 3 := by omega
      have h4 : n1 ≤ 3 := by omega
      refine ⟨q, n100, n4, n1, r4, hq, h3, hn4, h4, ?_, by omega, by omega⟩
      simp [hA, hB]

theorem leapCount (q a b c : Nat) (ha : a ≤ 3) (hb : b ≤ 24) (hc : c ≤ 3) :
    (400 * q + 100 * a + 4 * b + c) / 4 = 100 * q + 25 * a + b ∧
    (400 * q + 100 * a + 4 * b + c) / 100 = 4 * q + a ∧
    (400 * q + 100 * a + 4 * b + c) / 400 = q := by
  refine ⟨by omega, by omega, by omega⟩

theorem leapStep (Y : Int) :
    (Y - 1) / 4 - (Y - 1) / 100 + (Y - 1) / 400
      + (if (Y % 4 = 0 ∧ Y % 100 ≠ 0) ∨ Y % 400 = 0 then 1 else 0)
      = Y / 4 - Y / 100 + Y / 400 := by
  split <;> omega

theorem day_sub (d off : Nat) (h : off < d) (hd : d ≤ 366) :
    (d + 4294967296 - off) % 4294967296 % 65536 = d - off := by omega

theorem daysBeforeMonth_val (y : Nat) :
    daysBeforeMonth y 1 = 0 ∧ daysBeforeMonth y 2 = 31 ∧
    daysBeforeMonth y 3 = 31 + monthLength y 2 ∧
    daysBeforeMonth y 4 = 62 + monthLength y 2 ∧
    daysBeforeMonth y 5 = 92 + monthLength y 2 ∧
    daysBeforeMonth y 6 = 123 + monthLength y 2 ∧
    daysBeforeMonth y 7 = 153 + monthLength y 2 ∧
    daysBeforeMonth y 8 = 184 + monthLength y 2 ∧
    daysBeforeMonth y 9 = 215 + monthLength y 2 ∧
    daysBeforeMonth y 10 = 245 + monthLength y 2 ∧
    daysBeforeMonth y 11 = 276 + monthLength y 2 ∧
    daysBeforeMonth y 12 = 306 + monthLength y 2 := by
  simp only [daysBeforeMonth, List.range_succ, List.range_zero, List.map, List.sum_cons, List.sum_nil, List.nil_append, List.cons_append, Nat.reduceSub, Nat.reduceAdd]
  generalize monthLength y 2 = f
  simp +decide [monthLength]
  omega

theorem monthLength_val (y : Nat) :
    monthLength y 1 = 31 ∧ monthLength y 3 = 31 ∧ monthLength y 4 = 30 ∧ monthLength y 5 = 31 ∧
    monthLength y 6 = 30 ∧ monthLength y 7 = 31 ∧ monthLength y 8 = 31 ∧ monthLength y 9 = 30 ∧
    monthLength y 10 = 31 ∧ monthLength y 11 = 30 ∧ monthLength y 12 = 31 ∧
    28 ≤ monthLength y 2 ∧ (isLeapYear y = true → monthLength y 2 = 29) := by
  simp +decide [monthLength]
  split <;> simp

theorem rataDie_marDec (k m c dd : Nat) (hk : 2 ≤ k)
    (hc : daysBeforeMonth (k - 1) m = c + monthLength (k - 1) 2) :
    rataDie (k - 1) m dd = 365 * ((k : Int) - 1) + ((k : Int) - 1) / 4 - ((k : Int) - 1) / 100
        + ((k : Int) - 1) / 400 + (c : Int) + (dd : Int) - 337 := by
  have hl := leapStep ((k : Int) - 1)
  have hfeb : (monthLength (k - 1) 2 : Int)
      = 28 + (if ((k : Int) - 1) % 4 = 0 ∧ ((k : Int) - 1) % 100 ≠ 0 ∨ ((k : Int) - 1) % 400 = 0
          then 1 else 0) := by
    have h2 : monthLength (k - 1) 2 = if isLeapYear (k - 1) = true then 29 else 28 := rfl
    rw [h2]
    by_cases hL : isLeapYear (k - 1) = true
    · rw [if_pos hL]
      simp only [isLeapYear, decide_eq_true_eq] at hL
      rw [if_pos (by omega)]
      rfl
    · rw [if_neg hL]
      simp only [isLeapYear, decide_eq_true_eq] at hL
      rw [if_neg (by omega)]
      rfl
  have hk1 : ((k - 1 : Nat) : Int) = (k : Int) - 1 := by omega
  simp only [rataDie, hc, hk1, Nat.cast_add, hfeb]
  omega

theorem rataDie_janFeb (k m c dd : Nat) (hc : daysBeforeMonth k m = c) :
    rataDie k m dd = 365 * ((k : Int) - 1) + ((k : Int) - 1) / 4 - ((k : Int) - 1) / 100
        + ((k : Int) - 1) / 400 + (c : Int) + (dd : Int) := by
  simp only [rataDie, hc]

theorem marDec_table (y m : Nat) (h3 : 3 ≤ m) (h12 : m ≤ 12) :
    ∃ off len, DayOffset[m]? = some off ∧ monthLength y m = len ∧
      daysBeforeMonth y m = 31 + off + monthLength y 2 ∧
      ∀ d, (5 * d + 456) / 153 = m → off < d ∧ d ≤ off + len := by
  have hL := monthLength_val y
  have hD := daysBeforeMonth_val y
  interval_cases m
  · exact ⟨0, 31, rfl, hL.2.1, hD.2.2.1, fun d h => by omega⟩
  · exact ⟨31, 30, rfl, hL.2.2.1, hD.2.2.2.1, fun d h => by omega⟩
  · exact ⟨61, 31, rfl, hL.2.2.2.1, hD.2.2.2.2.1, fun d h => by omega⟩
  · exact ⟨92, 30, rfl, hL.2.2.2.2.1, hD.2.2.2.2.2.1, fun d h => by omega⟩
  · exact ⟨122, 31, rfl, hL.2.2.2.2.2.1, hD.2.2.2.2.2.2.1, fun d h => by omega⟩
  · exact ⟨153, 31, rfl, hL.2.2.2.2.2.2.1, hD.2.2.2.2.2.2.2.1, fun d h => by omega⟩
  · exact ⟨184, 30, rfl, hL.2.2.2.2.2.2.2.1, hD.2.2.2.2.2.2.2.2.1, fun d h => by omega⟩
  · exact ⟨214, 31, rfl, hL.2.2.2.2.2.2.2.2.1, hD.2.2.2.2.2.2.2.2.2.1, fun d h => by omega⟩
  · exact ⟨245, 30, rfl, hL.2.2.2.2.2.2.2.2.2.1, hD.2.2.2.2.2.2.2.2.2.2.1, fun d h => by omega⟩
  · exact ⟨275, 31, rfl, hL.2.2.2.2.2.2.2.2.2.2.1, hD.2.2.2.2.2.2.2.2.2.2.2, fun d h => by omega⟩

theorem monthPart_spec (k d : Nat) (hk : 1 ≤ k) (hk2 : k ≤ 10000) (hd : 1 ≤ d)
    (hd2 : d ≤ 365 ∨ (d = 366 ∧ isLeapYear k = true))
    (hlo : k = 1 → 307 ≤ d) (hhi : k = 10000 → d ≤ 306) :
    ∃ y m dd, monthPart k d = some (y, m, dd) ∧ validDate y m dd ∧
      rataDie y m dd = 365 * ((k : Int) - 1) + ((k : Int) - 1) / 4 - ((k : Int) - 1) / 100
        + ((k : Int) - 1) / 400 + (d : Int) - 306 := by
  have hd3 : d ≤ 366 := by omega
  have e1 : (5 * d + 456) % 4294967296 = 5 * d + 456 := Nat.mod_eq_of_lt (by omega)
  have e2 : (5 * d + 456) / 153 % 65536 = (5 * d + 456) / 153 := Nat.mod_eq_of_lt (by omega)
  have ey : (k + 65535) % 65536 = k - 1 := by omega
  simp only [monthPart, u16, u32, e1, e2, ey]
  obtain ⟨m0, hm0⟩ : ∃ m0, (5 * d + 456) / 153 = m0 := ⟨_, rfl⟩
  rw [hm0]
  have hm3 : 3 ≤ m0 := by omega
  have hm14 : m0 ≤ 14 := by omega
  clear e1 e2 ey
  by_cases h12 : m0 ≤ 12
  · obtain ⟨off, len, hoff, hlen, hcum, hrange⟩ := marDec_table (k - 1) m0 hm3 h12
    obtain ⟨hr1, hr2⟩ := hrange d hm0
    have hk' : 2 ≤ k := by omega
    rw [if_neg (by omega)]
    simp only [hoff]
    rw [day_sub d off hr1 hd3]
    refine ⟨_, _, _, rfl, ⟨by omega, by omega, by omega, h12, by omega, by omega⟩, ?_⟩
    rw [rataDie_marDec k m0 (31 + off) (d - off) hk' (by rw [hcum])]
    omega
  · have hm : m0 = 13 ∨ m0 = 14 := by omega
    have hL := (monthLength_val k)
    have hD := daysBeforeMonth_val k
    rcases hm with rfl | rfl
    · rw [if_pos (by decide)]
      rw [show DayOffset[(13 - 12) % 65536]? = some 306 from rfl]
      simp only
      rw [day_sub d 306 (by omega) hd3]
      refine ⟨_, _, _, rfl, ⟨by omega, by omega, by decide, by decide, by omega, ?_⟩, ?_⟩
      · rw [show (13 - 12) % 65536 = 1 from rfl, hL.1]
        omega
      · rw [rataDie_janFeb k _ 0 _ hD.1]
        omega
    · rw [if_pos (by decide)]
      rw [show DayOffset[(14 - 12) % 65536]? = some 337 from rfl]
      simp only
      rw [day_sub d 337 (by omega) hd3]
      refine ⟨_, _, _, rfl, ⟨by omega, by omega, by decide, by decide, by omega, ?_⟩, ?_⟩
      · rw [show (14 - 12) % 65536 = 2 from rfl]
        have h28 := hL.2.2.2.2.2.2.2.2.2.2.2.1
        have h29 : d = 366 → monthLength k 2 = 29 := by
          intro h
          rcases hd2 with h' | h'
          · omega
          · exact hL.2.2.2.2.2.2.2.2.2.2.2.2 h'.2
        clear hL hD hd2
        generalize monthLength k 2 = f at *
        omega
      · rw [rataDie_janFeb k _ 31 _ hD.2.1]
        omega

theorem rdn_to_ymd_gregorian (rdn : Nat) (h1 : 1 ≤ rdn) (h2 : rdn ≤ 3652059) :
    ∃ y m d, rdn_to_ymd rdn = some (y, m, d) ∧ validDate y m d ∧ rataDie y m d = (rdn : Int) := by
  obtain ⟨q, a, b, c, e, hq, ha, hb, hc, hmy, hx, he⟩ :=
    marchYear_decomp rdn (by omega) (by omega)
  obtain ⟨h4, h100, h400⟩ := leapCount q a b c ha hb hc
  have hleap : e + 1 ≤ 365 ∨ (e + 1 = 366 ∧ isLeapYear (400 * q + 100 * a + 4 * b + c + 1) = true) := by
    rcases he with he | ⟨he, hc3, hba⟩
    · exact Or.inl (by omega)
    · refine Or.inr ⟨by omega, ?_⟩
      simp only [isLeapYear, decide_eq_true_eq]
      omega
  obtain ⟨y, m, d, hmp, hvd, hrd⟩ :=
    monthPart_spec (400 * q + 100 * a + 4 * b + c + 1) (e + 1) (by omega) (by omega) (by omega)
      hleap (by omega) (by omega)
  refine ⟨y, m, d, ?_, hvd, ?_⟩
  · rw [rdn_to_ymd_eq, hmy]
    exact hmp
  · rw [hrd]
    have hk : ((400 * q + 100 * a + 4 * b + c + 1 : Nat) : Int) - 1
        = ((400 * q + 100 * a + 4 * b + c : Nat) : Int) := by omega
    rw [hk]
    have e4 : ((400 * q + 100 * a + 4 * b + c : Nat) : Int) / 4
        = ((100 * q + 25 * a + b : Nat) : Int) := by exact_mod_cast h4
    have e100 : ((400 * q + 100 * a + 4 * b + c : Nat) : Int) / 100
        = ((4 * q + a : Nat) : Int) := by exact_mod_cast h100
    have e400 : ((400 * q + 100 * a + 4 * b + c : Nat) : Int) / 400
        = ((q : Nat) : Int) := by exact_mod_cast h400
    rw [e4, e100, e400]
    omega

/-! ## The reference day number is strictly increasing in the date -/

theorem daysBeforeMonth_succ (y m : Nat) (hm : 1 ≤ m) :
    daysBeforeMonth y (m + 1) = daysBeforeMonth y m + monthLength y m := by
  obtain ⟨k, rfl⟩ : ∃ k, m = k + 1 := ⟨m - 1, by omega⟩
  simp [daysBeforeMonth, List.range_succ]

theorem daysBeforeMonth_mono (y m m' : Nat) (hm : 1 ≤ m) (h : m < m') :
    daysBeforeMonth y m + monthLength y m ≤ daysBeforeMonth y m' := by
  induction m' with
  | zero => omega
  | succ k ih =>
    by_cases hk : m = k
    · subst hk
      rw [daysBeforeMonth_succ y m hm]
    · have := ih (by omega)
      rw [daysBeforeMonth_succ y k (by omega)]
      omega

theorem daysBeforeMonth_thirteen (y : Nat) :
    daysBeforeMonth y 13 = 365 + (if isLeapYear y then 1 else 0) := by
  simp only [daysBeforeMonth, List.range_succ, List.range_zero, List.map, List.sum_cons,
    List.sum_nil, List.nil_append, List.cons_append, Nat.reduceSub, Nat.reduceAdd]
  simp +decide only [monthLength, if_true, if_false]
  split <;> rfl

theorem dayOfYear_le (y m d : Nat) (h : validDate y m d) :
    daysBeforeMonth y m + d ≤ 365 + (if isLeapYear y then 1 else 0) := by
  obtain ⟨-, -, hm1, hm2, -, hd⟩ := h
  have := daysBeforeMonth_mono y m 13 hm1 (by omega)
  rw [daysBeforeMonth_thirteen] at this
  omega

theorem yearStart_step (y : Int) :
    365 * (y - 1) + (y - 1) / 4 - (y - 1) / 100 + (y - 1) / 400 + 365
      + (if (y % 4 = 0 ∧ y % 100 ≠ 0) ∨ y % 400 = 0 then 1 else 0)
      = 365 * (y + 1 - 1) + (y + 1 - 1) / 4 - (y + 1 - 1) / 100 + (y + 1 - 1) / 400 := by
  split <;> omega

theorem yearStart_mono (y y' : Int) (h : y ≤ y') :
    365 * (y - 1) + (y - 1) / 4 - (y - 1) / 100 + (y - 1) / 400
      ≤ 365 * (y' - 1) + (y' - 1) / 4 - (y' - 1) / 100 + (y' - 1) / 400 := by
  omega

theorem rataDie_lt (y m d y' m' d' : Nat) (h : validDate y m d) (h' : validDate y' m' d')
    (hlt : dateLt y m d y' m' d') : rataDie y m d < rataDie y' m' d' := by
  have hdoy := dayOfYear_le y m d h
  obtain ⟨hy, -, hm1, hm2, hd1, hd⟩ := h
  obtain ⟨hy', -, hm1', hm2', hd1', hd'⟩ := h'
  simp only [rataDie]
  rcases hlt with hlt | ⟨rfl, hlt | ⟨rfl, hlt⟩⟩
  · have hstep := yearStart_step (y : Int)
    have hmono := yearStart_mono ((y : Int) + 1) (y' : Int) (by omega)
    have hleap : ((if isLeapYear y = true then (1 : Nat) else 0 : Nat) : Int)
        = (if ((y : Int) % 4 = 0 ∧ (y : Int) % 100 ≠ 0) ∨ (y : Int) % 400 = 0 then 1 else 0) := by
      simp only [isLeapYear, decide_eq_true_eq]
      split <;> split <;> first | rfl | omega
    rw [← hleap] at hstep
    clear hleap hd hd'
    generalize daysBeforeMonth y m = A at *
    generalize daysBeforeMonth y' m' = A' at *
    generalize (if isLeapYear y = true then (1 : Nat) else 0) = lp at *
    omega
  · have hmm := daysBeforeMonth_mono y m m' hm1 hlt
    clear hdoy
    generalize daysBeforeMonth y m = A at *
    generalize daysBeforeMonth y m' = A' at *
    generalize monthLength y m = B at *
    generalize monthLength y m' = B' at *
    omega
  · clear hdoy hd hd'
    generalize daysBeforeMonth y m = A at *
    omega

theorem rataDie_inj (y m d y' m' d' : Nat) (h : validDate y m d) (h' : validDate y' m' d')
    (he : rataDie y m d = rataDie y' m' d') : y = y' ∧ m = m' ∧ d = d' := by
  by_contra hne
  have hcases : dateLt y m d y' m' d' ∨ dateLt y' m' d' y m d := by
    simp only [dateLt]
    omega
  rcases hcases with hc | hc
  · have := rataDie_lt y m d y' m' d' h h' hc
    omega
  · have := rataDie_lt y' m' d' y m d h' h hc
    omega

/-! ## The encoder -/

theorem timestamp_format_stages (dst : Buf) (len : Nat) (tsp : timestamp_t) :
    timestamp_format dst len tsp =
      if timestamp_valid tsp = 0 then some (0, dst) else
      let r := fracLen (u32i tsp.nsec) (if tsp.offset ≠ 0 then 21 + 5 else 21)
      if r.2.2 > len then some (0, dst) else
      let sec := u64i (wrap64 (wrap64 (tsp.sec + wrap32 (tsp.offset * 60)) + EPOCH))
      match rdn_to_ymd (u32 (sec / 86400)) with
      | none => none
      | some (y, m, d) =>
        let b := fmtDate len (some dst) 0 y m d
        let b := fmtTime len b 10 (u32 (sec % 86400))
        let bp := fmtFrac len b 19 r.1 r.2.1
        let bp := fmtOffset len bp.1 bp.2 tsp.offset
        (poke len bp.1 bp.2 0).map fun b => (bp.2, b) := by
  unfold timestamp_format
  simp only [fracLen, fmtDate, fmtTime, fmtFrac, fmtOffset, Nat.reduceAdd, Nat.zero_add, Nat.add_zero]


theorem valid_wraps (t : timestamp_t) (hv : validTimestamp t) :
    wrap32 (t.offset * 60) = t.offset * 60 ∧
    wrap64 (t.sec + t.offset * 60) = localSec t ∧
    wrap64 (localSec t + EPOCH) = localSec t + EPOCH := by
  obtain ⟨h1, h2, h3, h4, h5, h6⟩ := hv
  simp only [localSec] at *
  simp only [wrap32, wrap64, EPOCH]
  refine ⟨by omega, by omega, by omega⟩

theorem timestamp_valid_of_valid (t : timestamp_t) (hv : validTimestamp t) :
    timestamp_valid t = 1 := by
  obtain ⟨w1, w2, _⟩ := valid_wraps t hv
  obtain ⟨h1, h2, h3, h4, h5, h6⟩ := hv
  simp only [timestamp_valid, w1, w2, MIN_SEC, MAX_SEC]
  rw [if_neg (by omega)]

theorem valid_sec (t : timestamp_t) (hv : validTimestamp t) :
    u64i (wrap64 (wrap64 (t.sec + wrap32 (t.offset * 60)) + EPOCH))
      = 86400 * (localDays t + 1) + localSod t ∧ localSod t < 86400 ∧
      localDays t + 1 ≤ 3652059 := by
  obtain ⟨w1, w2, w3⟩ := valid_wraps t hv
  obtain ⟨h1, h2, -⟩ := hv
  rw [w1, w2, w3]
  simp only [u64i, EPOCH, localDays, localSod]
  clear w1 w2 w3
  generalize localSec t = s at *
  obtain ⟨S, hS⟩ : ∃ S : Nat, s = (S : Int) - 62135596800 :=
    ⟨(s + 62135596800).toNat, by omega⟩
  subst hS
  have hb : S ≤ 315537897599 := by omega
  have e1 : ((S : Int) - 62135596800 + 62135683200) % 18446744073709551616
      = ((S + 86400 : Nat) : Int) := by omega
  have e2 : ((S : Int) - 62135596800 + 62135596800) / 86400 = ((S / 86400 : Nat) : Int) := by
    omega
  have e3 : ((S : Int) - 62135596800 + 62135596800) % 86400 = ((S % 86400 : Nat) : Int) := by
    omega
  rw [e1, e2, e3]
  simp only [Int.toNat_ofNat]
  omega

theorem poke_some (len : Nat) (b : Buf) (i v : Nat) (h : i < len) :
    poke len (some b) i v = some (upd b i v) := by
  simp [poke, h]

theorem blit_lt (b : Buf) (p : Nat) (l : List Nat) (j : Nat) (h : j < p) :
    blit b p l j = b j := by
  simp [blit, h]

theorem blit_ge (b : Buf) (p : Nat) (l : List Nat) (j : Nat) (h : p + l.length ≤ j) :
    blit b p l j = b j := by
  have h1 : ¬ j < p := by omega
  have h2 : l.length ≤ j - p := by omega
  simp [blit, h1, List.getElem?_eq_none h2]

theorem blit_at (b : Buf) (p : Nat) (l : List Nat) (k : Nat) (h : k < l.length) :
    blit b p l (p + k) = l[k] := by
  have h1 : ¬ p + k < p := by omega
  simp [blit, h1, List.getElem?_eq_getElem h]

theorem blit_ext (b c : Buf) (p : Nat) (l : List Nat)
    (hin : ∀ k (h : k < l.length), c (p + k) = l[k])
    (hout : ∀ j, j < p ∨ p + l.length ≤ j → c j = b j) : c = blit b p l := by
  funext j
  by_cases h1 : j < p
  · rw [blit_lt b p l j h1, hout j (Or.inl h1)]
  · by_cases h2 : p + l.length ≤ j
    · rw [blit_ge b p l j h2, hout j (Or.inr h2)]
    · obtain ⟨k, rfl⟩ : ∃ k, j = p + k := ⟨j - p, by omega⟩
      have hk : k < l.length := by omega
      rw [blit_at b p l k hk, hin k hk]

theorem blit_append (b : Buf) (p : Nat) (l1 l2 : List Nat) :
    blit (blit b p l1) (p + l1.length) l2 = blit b p (l1 ++ l2) := by
  apply blit_ext
  · intro k hk
    by_cases h : k < l1.length
    · rw [blit_lt _ _ _ _ (by omega), blit_at b p l1 k h, List.getElem_append_left h]
    · have hk2 : k - l1.length < l2.length := by
        rw [List.length_append] at hk
        omega
      have e : p + k = p + l1.length + (k - l1.length) := by omega
      rw [e, blit_at _ _ l2 _ hk2, List.getElem_append_right (by omega)]
  · intro j hj
    rw [List.length_append] at hj
    rcases hj with hj | hj
    · rw [blit_lt _ _ _ _ (by omega), blit_lt _ _ _ _ hj]
    · rw [blit_ge _ _ _ _ (by omega), blit_ge _ _ _ _ (by omega)]

theorem fmtDate_ok (len : Nat) (b : Buf) (p y m d : Nat) (h : p + 10 ≤ len) :
    fmtDate len (some b) p y m d
      = some (blit b p (pad 4 y ++ [45] ++ pad 2 m ++ [45] ++ pad 2 d)) := by
  simp only [fmtDate, Nat.add_assoc, Nat.reduceAdd]
  repeat rw [poke_some _ _ _ _ (by omega)]
  congr 1
  apply blit_ext
  · intro k hk
    simp only [pad, List.nil_append, List.cons_append, List.length_cons, List.length_nil,
      Nat.reduceAdd] at hk
    interval_cases k <;> simp [upd, pad] <;> omega
  · intro j hj
    simp only [pad, List.nil_append, List.cons_append, List.length_cons, List.length_nil,
      Nat.reduceAdd] at hj
    simp only [upd]
    repeat rw [if_neg (by omega)]

theorem fmtTime_ok (len : Nat) (b : Buf) (p v : Nat) (h : p + 9 ≤ len) (hv : v < 86400) :
    fmtTime len (some b) p v
      = some (blit b p ([84] ++ pad 2 (v / 3600) ++ [58] ++ pad 2 (v / 60 % 60) ++ [58]
          ++ pad 2 (v % 60))) := by
  simp only [fmtTime, Nat.add_assoc, Nat.reduceAdd]
  repeat rw [poke_some _ _ _ _ (by omega)]
  congr 1
  apply blit_ext
  · intro k hk
    simp only [pad, List.nil_append, List.cons_append, List.length_cons, List.length_nil,
      Nat.reduceAdd] at hk
    interval_cases k <;> simp [upd, pad] <;> omega
  · intro j hj
    simp only [pad, List.nil_append, List.cons_append, List.length_cons, List.length_nil,
      Nat.reduceAdd] at hj
    simp only [upd]
    repeat rw [if_neg (by omega)]

theorem fmtFrac_zero (len : Nat) (b : Option Buf) (p f : Nat) :
    fmtFrac len b p f 0 = (b, p) := by
  simp [fmtFrac]

theorem fmtFrac_milli (len : Nat) (b : Buf) (p f : Nat) (h : p + 4 ≤ len) :
    fmtFrac len (some b) p f 4 = (some (blit b p (46 :: pad 3 f)), p + 4) := by
  simp only [fmtFrac, Nat.add_assoc, Nat.reduceAdd]
  simp only [ne_eq, OfNat.ofNat_ne_zero, not_false_eq_true, if_true, gt_iff_lt, Nat.reduceLT,
    if_false, Nat.lt_irrefl]
  repeat rw [poke_some _ _ _ _ (by omega)]
  congr 2
  apply blit_ext
  · intro k hk
    simp only [pad, List.nil_append, List.cons_append, List.length_cons, List.length_nil,
      Nat.reduceAdd] at hk
    interval_cases k <;> simp [upd, pad] <;> omega
  · intro j hj
    simp only [pad, List.nil_append, List.cons_append, List.length_cons, List.length_nil,
      Nat.reduceAdd] at hj
    simp only [upd]
    repeat rw [if_neg (by omega)]

theorem fmtFrac_micro (len : Nat) (b : Buf) (p f : Nat) (h : p + 7 ≤ len) :
    fmtFrac len (some b) p f 7 = (some (blit b p (46 :: pad 6 f)), p + 7) := by
  simp only [fmtFrac, Nat.add_assoc, Nat.reduceAdd]
  simp only [ne_eq, OfNat.ofNat_ne_zero, not_false_eq_true, if_true, gt_iff_lt, Nat.reduceLT,
    if_false, Nat.lt_irrefl]
  repeat rw [poke_some _ _ _ _ (by omega)]
  congr 2
  apply blit_ext
  · intro k hk
    simp only [pad, List.nil_append, List.cons_append, List.length_cons, List.length_nil,
      Nat.reduceAdd] at hk
    interval_cases k <;> simp [upd, pad] <;> omega
  · intro j hj
    simp only [pad, List.nil_append, List.cons_append, List.length_cons, List.length_nil,
      Nat.reduceAdd] at hj
    simp only [upd]
    repeat rw [if_neg (by omega)]

theorem fmtFrac_nano (len : Nat) (b : Buf) (p f : Nat) (h : p + 10 ≤ len) :
    fmtFrac len (some b) p f 10 = (some (blit b p (46 :: pad 9 f)), p + 10) := by
  simp only [fmtFrac, Nat.add_assoc, Nat.reduceAdd]
  simp only [ne_eq, OfNat.ofNat_ne_zero, not_false_eq_true, if_true, gt_iff_lt, Nat.reduceLT,
    if_false, Nat.lt_irrefl]
  repeat rw [poke_some _ _ _ _ (by omega)]
  congr 2
  apply blit_ext
  · intro k hk
    simp only [pad, List.nil_append, List.cons_append, List.length_cons, List.length_nil,
      Nat.reduceAdd] at hk
    interval_cases k <;> simp [upd, pad] <;> omega
  · intro j hj
    simp only [pad, List.nil_append, List.cons_append, List.length_cons, List.length_nil,
      Nat.reduceAdd] at hj
    simp only [upd]
    repeat rw [if_neg (by omega)]

theorem fmtOffset_zero (len : Nat) (b : Buf) (p : Nat) (h : p + 1 ≤ len) :
    fmtOffset len (some b) p 0 = (some (blit b p [90]), p + 1) := by
  simp only [fmtOffset, if_true]
  rw [poke_some _ _ _ _ (by omega)]
  congr 2
  apply blit_ext
  · intro k hk
    simp only [List.length_cons, List.length_nil, Nat.reduceAdd] at hk
    interval_cases k
    simp [upd]
  · intro j hj
    simp only [List.length_cons, List.length_nil, Nat.reduceAdd] at hj
    simp only [upd]
    rw [if_neg (by omega)]

theorem fmtOffset_signed (len : Nat) (b : Buf) (p : Nat) (offset : Int) (h : p + 6 ≤ len)
    (h0 : offset ≠ 0) (h1 : -1439 ≤ offset) (h2 : offset ≤ 1439) :
    fmtOffset len (some b) p offset
      = (some (blit b p ((if offset < 0 then 45 else 43) ::
          (pad 2 (offset.natAbs / 60) ++ [58] ++ pad 2 (offset.natAbs % 60)))), p + 6) := by
  have hneg : offset < 0 → u32i (wrap32 (-offset)) = offset.natAbs := by
    intro hlt
    simp only [u32i, wrap32]
    omega
  have hpos : ¬ offset < 0 → u32i offset = offset.natAbs := by
    intro hlt
    simp only [u32i]
    omega
  have hb : offset.natAbs ≤ 1439 := by omega
  simp only [fmtOffset, if_neg h0, Nat.add_assoc, Nat.reduceAdd]
  by_cases hlt : offset < 0
  · simp only [if_pos hlt, hneg hlt]
    generalize offset.natAbs = v at *
    repeat rw [poke_some _ _ _ _ (by omega)]
    congr 2
    apply blit_ext
    · intro k hk
      simp only [pad, List.nil_append, List.cons_append, List.length_cons, List.length_nil,
        Nat.reduceAdd] at hk
      interval_cases k <;> simp [upd, pad] <;> omega
    · intro j hj
      simp only [pad, List.nil_append, List.cons_append, List.length_cons, List.length_nil,
        Nat.reduceAdd] at hj
      simp only [upd]
      repeat rw [if_neg (by omega)]
  · simp only [if_neg hlt, hpos hlt]
    generalize offset.natAbs = v at *
    repeat rw [poke_some _ _ _ _ (by omega)]
    congr 2
    apply blit_ext
    · intro k hk
      simp only [pad, List.nil_append, List.cons_append, List.length_cons, List.length_nil,
        Nat.reduceAdd] at hk
      interval_cases k <;> simp [upd, pad] <;> omega
    · intro j hj
      simp only [pad, List.nil_append, List.cons_append, List.length_cons, List.length_nil,
        Nat.reduceAdd] at hj
      simp only [upd]
      repeat rw [if_neg (by omega)]

theorem pad_length (w n : Nat) : (pad w n).length = w := by
  induction w generalizing n with
  | zero => rfl
  | succ w ih => simp [pad, ih]

theorem blit_nil (b : Buf) (p : Nat) : blit b p [] = b := by
  funext j
  simp [blit]

theorem upd_eq_blit (b : Buf) (p v : Nat) (h : v < 256) : upd b p v = blit b p [v] := by
  apply blit_ext
  · intro k hk
    simp only [List.length_cons, List.length_nil, Nat.reduceAdd] at hk
    interval_cases k
    simp [upd]
    omega
  · intro j hj
    simp only [List.length_cons, List.length_nil, Nat.reduceAdd] at hj
    simp only [upd]
    rw [if_neg (by omega)]

theorem renderFrac_length (nsec : Int) (h0 : 0 ≤ nsec) :
    (renderFrac nsec.toNat).length = fracSize nsec := by
  simp only [renderFrac, fracSize]
  by_cases h1 : nsec = 0
  · simp [h1]
  · rw [if_neg h1, if_neg (by omega)]
    by_cases h2 : nsec % 1000000 = 0
    · rw [if_pos h2, if_pos (by omega)]
      simp [pad_length]
    · rw [if_neg h2, if_neg (by omega)]
      by_cases h3 : nsec % 1000 = 0
      · rw [if_pos h3, if_pos (by omega)]
        simp [pad_length]
      · rw [if_neg h3, if_neg (by omega)]
        simp [pad_length]

theorem renderOffset_length (offset : Int) :
    (renderOffset offset).length = if offset ≠ 0 then 6 else 1 := by
  simp only [renderOffset]
  by_cases h : offset = 0
  · simp [h]
  · simp [h, pad_length]

theorem renderDateTime_length (y m d sod : Nat) : (renderDateTime y m d sod).length = 19 := by
  simp [renderDateTime, pad_length]

theorem frac_stage (len : Nat) (b : Buf) (p need : Nat) (nsec : Int)
    (h0 : 0 ≤ nsec) (h1 : nsec ≤ 999999999) (h : p + fracSize nsec ≤ len) :
    (fracLen (u32i nsec) need).2.2 = need + fracSize nsec ∧
    fmtFrac len (some b) p (fracLen (u32i nsec) need).1 (fracLen (u32i nsec) need).2.1
      = (some (blit b p (renderFrac nsec.toNat)), p + fracSize nsec) := by
  have hN : u32i nsec = nsec.toNat := by
    simp only [u32i]
    omega
  rw [hN]
  by_cases c1 : nsec = 0
  · subst c1
    simp only [fracLen, renderFrac, fracSize, Int.toNat_zero, if_true, fmtFrac_zero, blit_nil,
      Nat.add_zero, and_self]
  · have n1 : ¬ nsec.toNat = 0 := by omega
    by_cases c2 : nsec % 1000000 = 0
    · have n2 : nsec.toNat % 1000000 = 0 := by omega
      simp only [fracSize, c1, c2, if_true, if_false] at h
      simp only [fracLen, renderFrac, fracSize, c1, n1, c2, n2, if_true, if_false, true_and]
      exact fmtFrac_milli len b p _ h
    · have n2 : ¬ nsec.toNat % 1000000 = 0 := by omega
      by_cases c3 : nsec % 1000 = 0
      · have n3 : nsec.toNat % 1000 = 0 := by omega
        simp only [fracSize, c1, c2, c3, if_true, if_false] at h
        simp only [fracLen, renderFrac, fracSize, c1, n1, c2, n2, c3, n3, if_true, if_false,
          true_and]
        exact fmtFrac_micro len b p _ h
      · have n3 : ¬ nsec.toNat % 1000 = 0 := by omega
        simp only [fracSize, c1, c2, c3, if_true, if_false] at h
        simp only [fracLen, renderFrac, fracSize, c1, n1, c2, n2, c3, n3, if_true, if_false,
          true_and]
        exact fmtFrac_nano len b p _ h

theorem offset_stage (len : Nat) (b : Buf) (p : Nat) (offset : Int)
    (h1 : -1439 ≤ offset) (h2 : offset ≤ 1439)
    (h : p + (if offset ≠ 0 then 6 else 1) ≤ len) :
    fmtOffset len (some b) p offset
      = (some (blit b p (renderOffset offset)), p + (if offset ≠ 0 then 6 else 1)) := by
  by_cases h0 : offset = 0
  · subst h0
    simp only [ne_eq, not_true_eq_false, if_false] at h
    simp only [renderOffset, if_true, ne_eq, not_true_eq_false, if_false]
    exact fmtOffset_zero len b p h
  · rw [if_pos h0] at h
    rw [if_pos h0]
    simp only [renderOffset, if_neg h0]
    exact fmtOffset_signed len b p offset h h0 h1 h2

theorem timestamp_format_ok (dst : Buf) (len : Nat) (t : timestamp_t)
    (hv : validTimestamp t) (hlen : requiredSize t ≤ len) :
    ∃ y m d, rdn_to_ymd (localDays t + 1) = some (y, m, d) ∧ validDate y m d ∧
      rataDie y m d = (localDays t : Int) + 1 ∧
      timestamp_format dst len t = some (requiredSize t - 1,
        blit dst 0 (renderDateTime y m d (localSod t) ++ renderFrac t.nsec.toNat
          ++ renderOffset t.offset ++ [0])) := by
  obtain ⟨hs, hsod, hdays⟩ := valid_sec t hv
  obtain ⟨y, m, d, hymd, hvd, hrd⟩ := rdn_to_ymd_gregorian (localDays t + 1) (by omega) hdays
  have hvalid := timestamp_valid_of_valid t hv
  have hrdn : u32 ((86400 * (localDays t + 1) + localSod t) / 86400) = localDays t + 1 := by
    simp only [u32]
    omega
  have hv32 : u32 ((86400 * (localDays t + 1) + localSod t) % 86400) = localSod t := by
    simp only [u32]
    omega
  obtain ⟨-, -, hn0, hn1, ho0, ho1⟩ := hv
  refine ⟨y, m, d, hymd, hvd, by rw [hrd]; norm_cast, ?_⟩
  simp only [requiredSize] at hlen ⊢
  have hoff : (if t.offset ≠ 0 then 6 else 1) = (if t.offset ≠ 0 then 5 else 0) + 1 := by
    split <;> rfl
  have hneed : (if t.offset ≠ 0 then 21 + 5 else 21) = 21 + (if t.offset ≠ 0 then 5 else 0) := by
    split <;> rfl
  have hDT : blit (blit dst 0 (pad 4 y ++ [45] ++ pad 2 m ++ [45] ++ pad 2 d)) 10
      ([84] ++ pad 2 (localSod t / 3600) ++ [58] ++ pad 2 (localSod t / 60 % 60) ++ [58]
          ++ pad 2 (localSod t % 60)) = blit dst 0 (renderDateTime y m d (localSod t)) := by
    have h := blit_append dst 0 (pad 4 y ++ [45] ++ pad 2 m ++ [45] ++ pad 2 d)
      ([84] ++ pad 2 (localSod t / 3600) ++ [58] ++ pad 2 (localSod t / 60 % 60) ++ [58]
          ++ pad 2 (localSod t % 60))
    simp only [List.length_append, pad_length, List.length_cons, List.length_nil,
      Nat.reduceAdd] at h
    rw [h]
    simp only [renderDateTime, List.append_assoc]
  have hF : blit (blit dst 0 (renderDateTime y m d (localSod t))) 19 (renderFrac t.nsec.toNat)
      = blit dst 0 (renderDateTime y m d (localSod t) ++ renderFrac t.nsec.toNat) := by
    have h := blit_append dst 0 (renderDateTime y m d (localSod t)) (renderFrac t.nsec.toNat)
    rw [renderDateTime_length, Nat.zero_add] at h
    exact h
  have hO : blit (blit dst 0 (renderDateTime y m d (localSod t) ++ renderFrac t.nsec.toNat))
      (19 + fracSize t.nsec) (renderOffset t.offset)
      = blit dst 0 (renderDateTime y m d (localSod t) ++ renderFrac t.nsec.toNat
          ++ renderOffset t.offset) := by
    have h := blit_append dst 0 (renderDateTime y m d (localSod t) ++ renderFrac t.nsec.toNat)
      (renderOffset t.offset)
    rw [List.length_append, renderDateTime_length, renderFrac_length _ hn0, Nat.zero_add] at h
    exact h
  have hZ : upd (blit dst 0 (renderDateTime y m d (localSod t) ++ renderFrac t.nsec.toNat
          ++ renderOffset t.offset)) (19 + fracSize t.nsec + (if t.offset ≠ 0 then 6 else 1)) 0
      = blit dst 0 (renderDateTime y m d (localSod t) ++ renderFrac t.nsec.toNat
          ++ renderOffset t.offset ++ [0]) := by
    have h := blit_append dst 0 (renderDateTime y m d (localSod t) ++ renderFrac t.nsec.toNat
      ++ renderOffset t.offset) [0]
    rw [List.length_append, List.length_append, renderDateTime_length,
      renderFrac_length _ hn0, renderOffset_length, Nat.zero_add] at h
    rw [← h, upd_eq_blit _ _ _ (by decide)]
  obtain ⟨hf1, -⟩ := frac_stage len dst 19 (if t.offset ≠ 0 then 21 + 5 else 21) t.nsec hn0 hn1
    (by omega)
  rw [timestamp_format_stages]
  simp only [hvalid, hs, hrdn, hv32, hymd, hf1]
  rw [if_neg (by decide), if_neg (by omega)]
  rw [fmtDate_ok len dst 0 y m d (by omega), fmtTime_ok len _ 10 _ (by omega) hsod, hDT]
  rw [(frac_stage len _ 19 (if t.offset ≠ 0 then 21 + 5 else 21) t.nsec hn0 hn1 (by omega)).2]
  simp only [hF]
  rw [offset_stage len _ _ t.offset ho0 ho1 (by omega)]
  simp only [hO]
  rw [poke_some _ _ _ _ (by omega), hZ]
  simp only [Option.map_some']
  congr 2
  omega

theorem timestamp_valid_of_invalid (t : timestamp_t) (hwf : t.wf) (hv : ¬ validTimestamp t) :
    timestamp_valid t = 0 := by
  obtain ⟨s1, s2, -, -, -, -⟩ := hwf
  simp only [validTimestamp, localSec] at hv
  simp only [timestamp_valid, MIN_SEC, MAX_SEC]
  by_cases ho : -1439 ≤ t.offset ∧ t.offset ≤ 1439
  · obtain ⟨ho1, ho2⟩ := ho
    have w1 : wrap32 (t.offset * 60) = t.offset * 60 := by
      simp only [wrap32]
      omega
    rw [w1]
    by_cases hn : 0 ≤ t.nsec ∧ t.nsec ≤ 999999999
    · obtain ⟨hn1, hn2⟩ := hn
      have hr : t.sec + 60 * t.offset < -62135596800 ∨ 253402300799 < t.sec + 60 * t.offset := by
        omega
      rw [if_pos]
      simp only [wrap64]
      omega
    · rw [if_pos]
      omega
  · rw [if_pos]
    omega

theorem timestamp_valid_iff (t : timestamp_t) (hwf : t.wf) :
    timestamp_valid t = 1 ↔ validTimestamp t := by
  constructor
  · intro h
    by_contra hv
    rw [timestamp_valid_of_invalid t hwf hv] at h
    exact absurd h (by decide)
  · exact timestamp_valid_of_valid t

theorem wf_of_valid (t : timestamp_t) (hv : validTimestamp t) : t.wf := by
  obtain ⟨h1, h2, h3, h4, h5, h6⟩ := hv
  simp only [localSec] at h1 h2
  simp only [timestamp_t.wf]
  omega

theorem timestamp_format_invalid (dst : Buf) (len : Nat) (t : timestamp_t)
    (h : timestamp_valid t = 0) : timestamp_format dst len t = some (0, dst) := by
  rw [timestamp_format_stages, if_pos h]

theorem need_eq (t : timestamp_t) (hv : validTimestamp t) :
    (fracLen (u32i t.nsec) (if t.offset ≠ 0 then 21 + 5 else 21)).2.2 = requiredSize t := by
  obtain ⟨-, -, hn0, hn1, -, -⟩ := hv
  have hN : u32i t.nsec = t.nsec.toNat := by
    simp only [u32i]
    omega
  have hneed : (if t.offset ≠ 0 then 21 + 5 else 21) = 21 + (if t.offset ≠ 0 then 5 else 0) := by
    split <;> rfl
  rw [hN, hneed]
  simp only [requiredSize]
  generalize 21 + (if t.offset ≠ 0 then 5 else 0) = need
  by_cases c1 : t.nsec = 0
  · simp only [fracLen, fracSize, c1, Int.toNat_zero, if_true, Nat.add_zero]
  · have n1 : ¬ t.nsec.toNat = 0 := by omega
    by_cases c2 : t.nsec % 1000000 = 0
    · have n2 : t.nsec.toNat % 1000000 = 0 := by omega
      simp only [fracLen, fracSize, c1, n1, c2, n2, if_true, if_false]
    · have n2 : ¬ t.nsec.toNat % 1000000 = 0 := by omega
      by_cases c3 : t.nsec % 1000 = 0
      · have n3 : t.nsec.toNat % 1000 = 0 := by omega
        simp only [fracLen, fracSize, c1, n1, c2, n2, c3, n3, if_true, if_false]
      · have n3 : ¬ t.nsec.toNat % 1000 = 0 := by omega
        simp only [fracLen, fracSize, c1, n1, c2, n2, c3, n3, if_true, if_false]

theorem timestamp_format_short (dst : Buf) (len : Nat) (t : timestamp_t)
    (hv : validTimestamp t) (hlen : len < requiredSize t) :
    timestamp_format dst len t = some (0, dst) := by
  rw [timestamp_format_stages, if_neg (by rw [timestamp_valid_of_valid t hv]; decide)]
  simp only [need_eq t hv]
  rw [if_pos hlen]

theorem requiredSize_ge (t : timestamp_t) : 21 ≤ requiredSize t := by
  simp only [requiredSize]
  omega

theorem success_inv (dst : Buf) (len : Nat) (t : timestamp_t) (n : Nat) (b : Buf)
    (hwf : t.wf) (h : timestamp_format dst len t = some (n, b)) (hn : 0 < n) :
    validTimestamp t ∧ requiredSize t ≤ len := by
  by_cases hv : validTimestamp t
  · refine ⟨hv, ?_⟩
    by_contra hlen
    rw [timestamp_format_short dst len t hv (by omega)] at h
    simp only [Option.some.injEq, Prod.mk.injEq] at h
    omega
  · rw [timestamp_format_invalid dst len t (timestamp_valid_of_invalid t hwf hv)] at h
    simp only [Option.some.injEq, Prod.mk.injEq] at h
    omega

theorem bytes_getElem (b : Buf) (i n k : Nat) (h : k < (bytes b i n).length) :
    (bytes b i n)[k] = b (i + k) := by
  simp [bytes]

theorem bytes_blit_seg (b : Buf) (l1 l2 l3 : List Nat) :
    bytes (blit b 0 (l1 ++ l2 ++ l3)) l1.length l2.length = l2 := by
  apply List.ext_getElem
  · simp [bytes]
  · intro k h1 h2
    rw [bytes_getElem]
    have hk : l1.length + k < (l1 ++ l2 ++ l3).length := by
      simp only [List.length_append]
      omega
    have h := blit_at b 0 (l1 ++ l2 ++ l3) (l1.length + k) hk
    rw [Nat.zero_add] at h
    rw [h, List.getElem_append_left (by simp only [List.length_append]; omega),
      List.getElem_append_right (by omega)]
    simp

theorem bytes_blit_head (b : Buf) (l2 l3 : List Nat) :
    bytes (blit b 0 (l2 ++ l3)) 0 l2.length = l2 := by
  have h := bytes_blit_seg b [] l2 l3
  simpa using h

theorem local_days_sod (t : timestamp_t) (hv : validTimestamp t) :
    (localDays t : Int) = (localSec t + 62135596800) / 86400 ∧
    (localSod t : Int) = (localSec t + 62135596800) % 86400 := by
  obtain ⟨h1, h2, -⟩ := hv
  simp only [localDays, localSod]
  omega

theorem rataDie_epoch : rataDie 1 1 1 = 1 := by
  simp [rataDie, daysBeforeMonth]

/-- C1: for a valid timestamp and a capacity of at least the required size, the call
succeeds and the first 19 bytes are `YYYY-MM-DDThh:mm:ss`, where `(YYYY, MM, DD)` is the
proleptic Gregorian date lying `days` days after 0001-01-01 (the only one) and `hh`, `mm`, `ss` are
`sod / 3600`, `(sod / 60) mod 60`, `sod mod 60`, with `days` and `sod` the quotient and
remainder of `sec + 60*offset + 62135596800` by 86400 (the local instant). -/
theorem C1_local_date_time (dst : Buf) (len : Nat) (t : timestamp_t)
    (hv : validTimestamp t) (hlen : requiredSize t ≤ len) :
    (localDays t : Int) = (localSec t + 62135596800) / 86400 ∧
    (localSod t : Int) = (localSec t + 62135596800) % 86400 ∧
    ∃ n b y m d, timestamp_format dst len t = some (n, b) ∧
      validDate y m d ∧ rataDie y m d = rataDie 1 1 1 + (localDays t : Int) ∧
      (∀ y' m' d', validDate y' m' d' →
        rataDie y' m' d' = rataDie 1 1 1 + (localDays t : Int) → y' = y ∧ m' = m ∧ d' = d) ∧
      bytes b 0 19 = pad 4 y ++ [45] ++ pad 2 m ++ [45] ++ pad 2 d ++ [84] ++
        pad 2 (localSod t / 3600) ++ [58] ++ pad 2 (localSod t / 60 % 60) ++ [58] ++
        pad 2 (localSod t % 60) := by
  obtain ⟨hd, hs⟩ := local_days_sod t hv
  obtain ⟨y, m, d, -, hvd, hrd, hfmt⟩ := timestamp_format_ok dst len t hv hlen
  have hrd1 : rataDie y m d = rataDie 1 1 1 + (localDays t : Int) := by
    rw [hrd, rataDie_epoch]
    omega
  refine ⟨hd, hs, _, _, y, m, d, hfmt, hvd, hrd1, ?_, ?_⟩
  · intro y' m' d' hv' hr'
    exact rataDie_inj y' m' d' y m d hv' hvd (by rw [hr', hrd1])
  · have h := bytes_blit_head dst (renderDateTime y m d (localSod t))
      (renderFrac t.nsec.toNat ++ renderOffset t.offset ++ [0])
    rw [renderDateTime_length] at h
    simp only [List.append_assoc] at h ⊢
    rw [h]
    simp only [renderDateTime, List.append_assoc]

theorem C1_local_date_time_witness :
    validTimestamp ⟨1700000000, 1, 1439⟩ ∧ requiredSize ⟨1700000000, 1, 1439⟩ ≤ 64 ∧
    ((localDays ⟨1700000000, 1, 1439⟩ : Int)
        = (localSec ⟨1700000000, 1, 1439⟩ + 62135596800) / 86400 ∧
    (localSod ⟨1700000000, 1, 1439⟩ : Int)
        = (localSec ⟨1700000000, 1, 1439⟩ + 62135596800) % 86400 ∧
    ∃ n b y m d, timestamp_format (fun _ => 0) 64 ⟨1700000000, 1, 1439⟩ = some (n, b) ∧
      validDate y m d ∧
      rataDie y m d = rataDie 1 1 1 + (localDays ⟨1700000000, 1, 1439⟩ : Int) ∧
      (∀ y' m' d', validDate y' m' d' →
        rataDie y' m' d' = rataDie 1 1 1 + (localDays ⟨1700000000, 1, 1439⟩ : Int) →
        y' = y ∧ m' = m ∧ d' = d) ∧
      bytes b 0 19 = pad 4 y ++ [45] ++ pad 2 m ++ [45] ++ pad 2 d ++ [84] ++
        pad 2 (localSod ⟨1700000000, 1, 1439⟩ / 3600) ++ [58] ++
        pad 2 (localSod ⟨1700000000, 1, 1439⟩ / 60 % 60) ++ [58] ++
        pad 2 (localSod ⟨1700000000, 1, 1439⟩ % 60)) :=
  ⟨by decide, by decide,
    C1_local_date_time (fun _ => 0) 64 ⟨1700000000, 1, 1439⟩ (by decide) (by decide)⟩

/-- C2: for every day number `rdn` in `[1, 3652059]`, `rdn_to_ymd rdn` returns a triple
`(y, m, d)` that is a real proleptic Gregorian date with `1 ≤ y ≤ 9999` and whose Rata Die
number by the reference formula equals `rdn`. -/
theorem C2_rdn_to_ymd_gregorian (rdn : Nat) (h1 : 1 ≤ rdn) (h2 : rdn ≤ 3652059) :
    ∃ y m d, rdn_to_ymd rdn = some (y, m, d) ∧
      (1 ≤ y ∧ y ≤ 9999 ∧ 1 ≤ m ∧ m ≤ 12 ∧ 1 ≤ d ∧ d ≤ monthLength y m) ∧
      (monthLength y 2 = 29 ↔ ((y % 4 = 0 ∧ y % 100 ≠ 0) ∨ y % 400 = 0)) ∧
      365 * ((y : Int) - 1) + ((y : Int) - 1) / 4 - ((y : Int) - 1) / 100 + ((y : Int) - 1) / 400
        + (daysBeforeMonth y m : Int) + (d : Int) = (rdn : Int) := by
  obtain ⟨y, m, d, h, hv, hr⟩ := rdn_to_ymd_gregorian rdn h1 h2
  refine ⟨y, m, d, h, hv, ?_, hr⟩
  simp only [monthLength, isLeapYear, if_true]
  by_cases hl : (y % 4 = 0 ∧ y % 100 ≠ 0) ∨ y % 400 = 0
  · simp [hl]
  · simp [hl]

theorem C2_rdn_to_ymd_gregorian_witness :
    1 ≤ 730179 ∧ 730179 ≤ 3652059 ∧
    ∃ y m d, rdn_to_ymd 730179 = some (y, m, d) ∧
      (1 ≤ y ∧ y ≤ 9999 ∧ 1 ≤ m ∧ m ≤ 12 ∧ 1 ≤ d ∧ d ≤ monthLength y m) ∧
      (monthLength y 2 = 29 ↔ ((y % 4 = 0 ∧ y % 100 ≠ 0) ∨ y % 400 = 0)) ∧
      365 * ((y : Int) - 1) + ((y : Int) - 1) / 4 - ((y : Int) - 1) / 100 + ((y : Int) - 1) / 400
        + (daysBeforeMonth y m : Int) + (d : Int) = ((730179 : Nat) : Int) :=
  ⟨by decide, by decide, C2_rdn_to_ymd_gregorian 730179 (by decide) (by decide)⟩

/-- C3: for every timestamp (of the C type), every buffer and every capacity, if
`sec + 60*offset` is below -62135596800 or above 253402300799, or `nsec` is outside
`[0, 999999999]`, or `offset` is outside `[-1439, 1439]`, then `timestamp_format` returns 0
and the buffer is unchanged, whatever the capacity. -/
theorem C3_invalid_returns_zero (dst : Buf) (len : Nat) (t : timestamp_t) (hwf : t.wf)
    (h : t.sec + 60 * t.offset < -62135596800 ∨ 253402300799 < t.sec + 60 * t.offset ∨
      t.nsec < 0 ∨ 999999999 < t.nsec ∨ t.offset < -1439 ∨ 1439 < t.offset) :
    timestamp_format dst len t = some (0, dst) := by
  apply timestamp_format_invalid
  apply timestamp_valid_of_invalid t hwf
  simp only [validTimestamp, localSec]
  omega

theorem C3_invalid_returns_zero_witness :
    (⟨9223372036854775807, 0, 1439⟩ : timestamp_t).wf ∧
    ((9223372036854775807 : Int) + 60 * 1439 < -62135596800 ∨
      253402300799 < (9223372036854775807 : Int) + 60 * 1439 ∨
      (0 : Int) < 0 ∨ 999999999 < (0 : Int) ∨ (1439 : Int) < -1439 ∨ 1439 < (1439 : Int)) ∧
    timestamp_format (fun _ => 7) 1000 ⟨9223372036854775807, 0, 1439⟩
      = some (0, fun _ => 7) :=
  ⟨by decide, by decide,
    C3_invalid_returns_zero (fun _ => 7) 1000 ⟨9223372036854775807, 0, 1439⟩ (by decide)
      (by decide)⟩

/-- C4: for every valid timestamp, with `R = 21 + (5 if offset ≠ 0) + F` and `F` equal to
0, 4, 7 or 10 by the divisibility of `nsec`, every capacity `len < R` (in particular
`len = R - 1`) makes `timestamp_format` return 0 and leave the buffer unchanged. -/
theorem C4_short_buffer_returns_zero (dst : Buf) (len : Nat) (t : timestamp_t)
    (hv : validTimestamp t)
    (hlen : len < 21 + (if t.offset ≠ 0 then 5 else 0) +
      (if t.nsec = 0 then 0 else if t.nsec % 1000000 = 0 then 4
        else if t.nsec % 1000 = 0 then 7 else 10)) :
    timestamp_format dst len t = some (0, dst) ∧
    timestamp_format dst (requiredSize t - 1) t = some (0, dst) := by
  have hR : requiredSize t = 21 + (if t.offset ≠ 0 then 5 else 0) +
      (if t.nsec = 0 then 0 else if t.nsec % 1000000 = 0 then 4
        else if t.nsec % 1000 = 0 then 7 else 10) := rfl
  have h21 := requiredSize_ge t
  exact ⟨timestamp_format_short dst len t hv (by omega),
    timestamp_format_short dst _ t hv (by omega)⟩

theorem C4_short_buffer_returns_zero_witness :
    validTimestamp ⟨1700000000, 1000, -330⟩ ∧
    (32 < 21 + (if (-330 : Int) ≠ 0 then 5 else 0) +
      (if (1000 : Int) = 0 then 0 else if (1000 : Int) % 1000000 = 0 then 4
        else if (1000 : Int) % 1000 = 0 then 7 else 10)) ∧
    (timestamp_format (fun _ => 7) 32 ⟨1700000000, 1000, -330⟩ = some (0, fun _ => 7) ∧
    timestamp_format (fun _ => 7) (requiredSize ⟨1700000000, 1000, -330⟩ - 1)
      ⟨1700000000, 1000, -330⟩ = some (0, fun _ => 7)) :=
  ⟨by decide, by decide,
    C4_short_buffer_returns_zero (fun _ => 7) 32 ⟨1700000000, 1000, -330⟩ (by decide)
      (by decide)⟩

/-- C5: for every valid timestamp and every capacity `len ≥ R`, `timestamp_format`
succeeds and returns `R - 1 = 20 + (5 if offset ≠ 0) + F`, one of 20, 24, 25, 27, 29, 30,
32, 35 and never 0; and a return of 0 happens exactly when the timestamp is invalid or
`len < R`. -/
theorem C5_return_value (dst : Buf) (len : Nat) (t : timestamp_t) (hwf : t.wf) :
    (validTimestamp t → requiredSize t ≤ len →
      ∃ b, timestamp_format dst len t = some (requiredSize t - 1, b) ∧
        requiredSize t - 1 = 20 + (if t.offset ≠ 0 then 5 else 0) + fracSize t.nsec ∧
        fracSize t.nsec ∈ [0, 4, 7, 10] ∧
        requiredSize t - 1 ∈ [20, 24, 25, 27, 29, 30, 32, 35] ∧
        requiredSize t - 1 ≠ 0) ∧
    (∃ n b, timestamp_format dst len t = some (n, b)) ∧
    ((∃ b, timestamp_format dst len t = some (0, b)) ↔
      (¬ validTimestamp t ∨ len < requiredSize t)) := by
  have hsucc : validTimestamp t → requiredSize t ≤ len →
      ∃ b, timestamp_format dst len t = some (requiredSize t - 1, b) := by
    intro hv hlen
    obtain ⟨y, m, d, -, -, -, hfmt⟩ := timestamp_format_ok dst len t hv hlen
    exact ⟨_, hfmt⟩
  have hR : requiredSize t = 21 + (if t.offset ≠ 0 then 5 else 0) + fracSize t.nsec := rfl
  have hF : fracSize t.nsec = 0 ∨ fracSize t.nsec = 4 ∨ fracSize t.nsec = 7 ∨
      fracSize t.nsec = 10 := by
    simp only [fracSize]
    split_ifs <;> simp
  refine ⟨?_, ?_, ?_⟩
  · intro hv hlen
    obtain ⟨b, hb⟩ := hsucc hv hlen
    refine ⟨b, hb, by omega, ?_, ?_, by omega⟩
    · simp only [List.mem_cons, List.mem_singleton, List.mem_nil_iff, or_false]
      exact hF
    · rw [hR]
      simp only [List.mem_cons, List.mem_singleton, List.mem_nil_iff, or_false]
      split_ifs <;> omega
  · by_cases hv : validTimestamp t
    · by_cases hlen : requiredSize t ≤ len
      · obtain ⟨b, hb⟩ := hsucc hv hlen
        exact ⟨_, b, hb⟩
      · exact ⟨0, dst, timestamp_format_short dst len t hv (by omega)⟩
    · exact ⟨0, dst, timestamp_format_invalid dst len t (timestamp_valid_of_invalid t hwf hv)⟩
  · constructor
    · rintro ⟨b, hb⟩
      by_contra hc
      have hv : validTimestamp t := by
        by_contra hv
        exact hc (Or.inl hv)
      have hlen : requiredSize t ≤ len := by
        by_contra hl
        exact hc (Or.inr (by omega))
      obtain ⟨b2, hb2⟩ := hsucc hv hlen
      rw [hb2] at hb
      simp only [Option.some.injEq, Prod.mk.injEq] at hb
      omega
    · rintro (hv | hlen)
      · exact ⟨dst, timestamp_format_invalid dst len t (timestamp_valid_of_invalid t hwf hv)⟩
      · by_cases hv : validTimestamp t
        · exact ⟨dst, timestamp_format_short dst len t hv hlen⟩
        · exact ⟨dst, timestamp_format_invalid dst len t
            (timestamp_valid_of_invalid t hwf hv)⟩

theorem C5_return_value_witness :
    (⟨1700000000, 1000, -330⟩ : timestamp_t).wf ∧
    ∃ b, timestamp_format (fun _ => 7) 33 ⟨1700000000, 1000, -330⟩
        = some (requiredSize ⟨1700000000, 1000, -330⟩ - 1, b) ∧
      requiredSize ⟨1700000000, 1000, -330⟩ - 1
        = 20 + (if (-330 : Int) ≠ 0 then 5 else 0) + fracSize 1000 ∧
      fracSize 1000 ∈ [0, 4, 7, 10] ∧
      requiredSize ⟨1700000000, 1000, -330⟩ - 1 ∈ [20, 24, 25, 27, 29, 30, 32, 35] ∧
      requiredSize ⟨1700000000, 1000, -330⟩ - 1 ≠ 0 :=
  ⟨by decide,
    (C5_return_value (fun _ => 7) 33 ⟨1700000000, 1000, -330⟩ (by decide)).1 (by decide)
      (by decide)⟩

theorem bytes_eq_get (b : Buf) (i n : Nat) (l : List Nat) (h : bytes b i n = l) (j : Nat)
    (hj : j < l.length) : b (i + j) = l[j] := by
  subst h
  rw [bytes_getElem]

theorem pad_isDigit (w n c : Nat) (h : c ∈ pad w n) : isDigit c := by
  induction w generalizing n with
  | zero => simp [pad] at h
  | succ w ih =>
    simp only [pad, List.mem_append, List.mem_singleton] at h
    rcases h with h | h
    · exact ih _ h
    · subst h
      simp only [isDigit]
      omega

theorem digitsValue_append (l : List Nat) (c : Nat) :
    digitsValue (l ++ [c]) = 10 * digitsValue l + (c - 48) := by
  simp [digitsValue, List.foldl_append]

theorem digitsValue_pad (w n : Nat) : digitsValue (pad w n) = n % 10 ^ w := by
  induction w generalizing n with
  | zero => simp [pad, digitsValue, Nat.mod_one]
  | succ w ih =>
    rw [pad, digitsValue_append, ih, Nat.pow_succ]
    have h1 : n % (10 ^ w * 10) = n % 10 + 10 * (n / 10 % 10 ^ w) := by
      rw [Nat.mul_comm, Nat.mod_mul]
    rw [h1]
    omega

theorem success_segments (dst : Buf) (len : Nat) (t : timestamp_t) (n : Nat) (b : Buf)
    (hwf : t.wf) (h : timestamp_format dst len t = some (n, b)) (hn : 0 < n) :
    ∃ y m d, validTimestamp t ∧ requiredSize t ≤ len ∧ validDate y m d ∧
      rdn_to_ymd (localDays t + 1) = some (y, m, d) ∧ localSod t < 86400 ∧
      n = 19 + fracSize t.nsec + (if t.offset ≠ 0 then 6 else 1) ∧
      bytes b 0 19 = renderDateTime y m d (localSod t) ∧
      bytes b 19 (fracSize t.nsec) = renderFrac t.nsec.toNat ∧
      bytes b (19 + fracSize t.nsec) (if t.offset ≠ 0 then 6 else 1) = renderOffset t.offset ∧
      b n = 0 ∧ ∀ i, n < i → b i = dst i := by
  obtain ⟨hv, hlen⟩ := success_inv dst len t n b hwf h hn
  obtain ⟨y, m, d, hymd, hvd, -, hfmt⟩ := timestamp_format_ok dst len t hv hlen
  obtain ⟨-, hsod, -⟩ := valid_sec t hv
  rw [hfmt] at h
  simp only [Option.some.injEq, Prod.mk.injEq] at h
  obtain ⟨hn', hb⟩ := h
  have hn0 : 0 ≤ t.nsec := hv.2.2.1
  have hlR : requiredSize t = 21 + (if t.offset ≠ 0 then 5 else 0) + fracSize t.nsec := rfl
  have hnv : n = 19 + fracSize t.nsec + (if t.offset ≠ 0 then 6 else 1) := by
    split_ifs at hlR ⊢ <;> omega
  refine ⟨y, m, d, hv, hlen, hvd, hymd, hsod, hnv, ?_, ?_, ?_, ?_, ?_⟩
  · have e := bytes_blit_head dst (renderDateTime y m d (localSod t))
      (renderFrac t.nsec.toNat ++ renderOffset t.offset ++ [0])
    rw [renderDateTime_length] at e
    rw [← hb]
    simp only [List.append_assoc] at e ⊢
    exact e
  · have e := bytes_blit_seg dst (renderDateTime y m d (localSod t)) (renderFrac t.nsec.toNat)
      (renderOffset t.offset ++ [0])
    rw [renderDateTime_length, renderFrac_length _ hn0] at e
    rw [← hb]
    simp only [List.append_assoc] at e ⊢
    exact e
  · have e := bytes_blit_seg dst (renderDateTime y m d (localSod t) ++ renderFrac t.nsec.toNat)
      (renderOffset t.offset) [0]
    rw [List.length_append, renderDateTime_length, renderFrac_length _ hn0,
      renderOffset_length] at e
    rw [← hb]
    exact e
  · have hl : (renderDateTime y m d (localSod t) ++ renderFrac t.nsec.toNat
        ++ renderOffset t.offset).length = n := by
      rw [List.length_append, List.length_append, renderDateTime_length,
        renderFrac_length _ hn0, renderOffset_length, hnv]
    have e := blit_at dst 0 (renderDateTime y m d (localSod t) ++ renderFrac t.nsec.toNat
        ++ renderOffset t.offset ++ [0]) n (by rw [List.length_append, hl]; simp)
    rw [Nat.zero_add] at e
    rw [← hb, e, List.getElem_append_right (by omega)]
    simp [hl]
  · intro i hi
    rw [← hb]
    apply blit_ge
    rw [List.length_append, List.length_append, List.length_append, renderDateTime_length,
      renderFrac_length _ hn0, renderOffset_length]
    simp only [List.length_cons, List.length_nil]
    omega

theorem renderDateTime_ne_zero (y m d sod c : Nat) (h : c ∈ renderDateTime y m d sod) :
    43 ≤ c ∧ c ≠ 46 := by
  simp only [renderDateTime, List.mem_append, List.mem_singleton] at h
  rcases h with (((((((((((h | h) | h) | h) | h) | h) | h) | h) | h) | h) | h))
  all_goals first
    | (have hd := pad_isDigit _ _ _ h
       simp only [isDigit] at hd
       omega)
    | omega

theorem renderFrac_ne_zero (nsec c : Nat) (h : c ∈ renderFrac nsec) : 43 ≤ c := by
  simp only [renderFrac] at h
  split_ifs at h
  · simp at h
  all_goals
    simp only [List.mem_cons] at h
    rcases h with h | h
    · omega
    · have hd := pad_isDigit _ _ _ h
      simp only [isDigit] at hd
      omega

theorem renderOffset_ne_zero (offset : Int) (c : Nat) (h : c ∈ renderOffset offset) :
    43 ≤ c ∧ c ≠ 46 := by
  simp only [renderOffset] at h
  split_ifs at h
  · simp only [List.mem_singleton] at h
    omega
  all_goals
    simp only [List.mem_cons, List.mem_append, List.mem_singleton, List.mem_nil_iff,
      or_false] at h
    rcases h with h | (h | h) | h
    · omega
    · have hd := pad_isDigit _ _ _ h
      simp only [isDigit] at hd
      omega
    · omega
    · have hd := pad_isDigit _ _ _ h
      simp only [isDigit] at hd
      omega

theorem success_nonzero (dst : Buf) (len : Nat) (t : timestamp_t) (n : Nat) (b : Buf)
    (hwf : t.wf) (h : timestamp_format dst len t = some (n, b)) (hn : 0 < n) :
    ∀ i, i < n → 43 ≤ b i ∧ (t.nsec = 0 → b i ≠ 46) := by
  obtain ⟨y, m, d, hv, -, -, -, -, hnv, s1, s2, s3, -, -⟩ :=
    success_segments dst len t n b hwf h hn
  have hn0 : 0 ≤ t.nsec := hv.2.2.1
  have l1 := renderDateTime_length y m d (localSod t)
  have l2 := renderFrac_length t.nsec hn0
  have l3 := renderOffset_length t.offset
  intro i hi
  by_cases c1 : i < 19
  · have e := bytes_eq_get b 0 19 _ s1 i (by omega)
    rw [Nat.zero_add] at e
    have hm := renderDateTime_ne_zero y m d (localSod t) (b i) (by rw [e]; exact List.getElem_mem _)
    exact ⟨hm.1, fun _ => hm.2⟩
  · by_cases c2 : i < 19 + fracSize t.nsec
    · have e := bytes_eq_get b 19 _ _ s2 (i - 19) (by omega)
      rw [show 19 + (i - 19) = i by omega] at e
      have hm := renderFrac_ne_zero t.nsec.toNat (b i) (by rw [e]; exact List.getElem_mem _)
      refine ⟨hm, fun h0 => ?_⟩
      simp only [fracSize, h0, if_true] at c2
      omega
    · have e := bytes_eq_get b _ _ _ s3 (i - (19 + fracSize t.nsec)) (by omega)
      rw [show 19 + fracSize t.nsec + (i - (19 + fracSize t.nsec)) = i by omega] at e
      have hm := renderOffset_ne_zero t.offset (b i) (by rw [e]; exact List.getElem_mem _)
      exact ⟨hm.1, fun _ => hm.2⟩

theorem ret_some (r : Option (Nat × Buf)) (n : Nat) (h : r.map Prod.fst = some n) :
    ∃ b, r = some (n, b) := by
  cases r with
  | none => simp at h
  | some x =>
    obtain ⟨k, b⟩ := x
    simp only [Option.map_some', Option.some.injEq] at h
    subst h
    exact ⟨b, rfl⟩

theorem bytes_two (b : Buf) (i : Nat) : bytes b i 2 = [b i, b (i + 1)] := by
  simp [bytes, List.range_succ]

theorem bytes_four (b : Buf) (i : Nat) : bytes b i 4 = [b i, b (i + 1), b (i + 2), b (i + 3)] := by
  simp [bytes, List.range_succ]

theorem dateTime_bytes (b : Buf) (y m d sod : Nat)
    (h : bytes b 0 19 = renderDateTime y m d sod) :
    b 0 = 48 + y / 1000 % 10 ∧ b 1 = 48 + y / 100 % 10 ∧ b 2 = 48 + y / 10 % 10 ∧
    b 3 = 48 + y % 10 ∧ b 4 = 45 ∧ b 5 = 48 + m / 10 % 10 ∧ b 6 = 48 + m % 10 ∧ b 7 = 45 ∧
    b 8 = 48 + d / 10 % 10 ∧ b 9 = 48 + d % 10 ∧ b 10 = 84 ∧
    b 11 = 48 + sod / 3600 / 10 % 10 ∧ b 12 = 48 + sod / 3600 % 10 ∧ b 13 = 58 ∧
    b 14 = 48 + sod / 60 % 60 / 10 % 10 ∧ b 15 = 48 + sod / 60 % 60 % 10 ∧ b 16 = 58 ∧
    b 17 = 48 + sod % 60 / 10 % 10 ∧ b 18 = 48 + sod % 60 % 10 := by
  simp only [bytes, List.range_succ, List.range_zero, List.map_append, List.map_cons,
    List.map_nil, List.nil_append, List.cons_append, Nat.zero_add, renderDateTime, pad,
    List.cons.injEq, and_true, List.append_assoc, List.singleton_append] at h
  obtain ⟨h0, h1, h2, h3, h4, h5, h6, h7, h8, h9, h10, h11, h12, h13, h14, h15, h16, h17, h18⟩
    := h
  refine ⟨by omega, by omega, by omega, h3, h4, h5, h6, h7, h8, h9, h10, h11, h12, h13, h14,
    h15, h16, h17, h18⟩

theorem bytes_succ (b : Buf) (i n : Nat) : bytes b i (n + 1) = b i :: bytes b (i + 1) n := by
  apply List.ext_getElem
  · simp [bytes]
  · intro k h1 h2
    rw [bytes_getElem]
    cases k with
    | zero => simp
    | succ k =>
      simp only [List.getElem_cons_succ]
      rw [bytes_getElem]
      congr 1
      omega

/-- The fractional digits: their number `k` and the value they render. -/
theorem frac_bytes (b : Buf) (nsec : Int) (h0 : 0 < nsec) (h1 : nsec ≤ 999999999)
    (h : bytes b 19 (fracSize nsec) = renderFrac nsec.toNat) :
    ∃ k, k = (if nsec % 1000000 = 0 then 3 else if nsec % 1000 = 0 then 6 else 9) ∧
      fracSize nsec = k + 1 ∧ b 19 = 46 ∧
      bytes b 20 k = pad k (nsec.toNat / 10 ^ (9 - k)) ∧
      (nsec.toNat / 10 ^ (9 - k)) * 10 ^ (9 - k) = nsec.toNat ∧
      nsec.toNat / 10 ^ (9 - k) < 10 ^ k := by
  have n1 : ¬ nsec.toNat = 0 := by omega
  have c1 : ¬ nsec = 0 := by omega
  by_cases c2 : nsec % 1000000 = 0
  · have n2 : nsec.toNat % 1000000 = 0 := by omega
    simp only [fracSize, renderFrac, c1, n1, c2, n2, if_true, if_false] at h
    rw [show (4 : Nat) = 3 + 1 from rfl, bytes_succ] at h
    simp only [List.cons.injEq] at h
    refine ⟨3, by rw [if_pos c2], by simp only [fracSize, c1, c2, if_true, if_false], h.1, ?_, ?_,
      ?_⟩
    · rw [h.2]
      rfl
    · simp only [Nat.reduceSub, Nat.reducePow]
      omega
    · simp only [Nat.reduceSub, Nat.reducePow]
      omega
  · have n2 : ¬ nsec.toNat % 1000000 = 0 := by omega
    by_cases c3 : nsec % 1000 = 0
    · have n3 : nsec.toNat % 1000 = 0 := by omega
      simp only [fracSize, renderFrac, c1, n1, c2, n2, c3, n3, if_true, if_false] at h
      rw [show (7 : Nat) = 6 + 1 from rfl, bytes_succ] at h
      simp only [List.cons.injEq] at h
      refine ⟨6, by rw [if_neg c2, if_pos c3],
        by simp only [fracSize, c1, c2, c3, if_true, if_false], h.1, ?_, ?_, ?_⟩
      · rw [h.2]
        rfl
      · simp only [Nat.reduceSub, Nat.reducePow]
        omega
      · simp only [Nat.reduceSub, Nat.reducePow]
        omega
    · have n3 : ¬ nsec.toNat % 1000 = 0 := by omega
      simp only [fracSize, renderFrac, c1, n1, c2, n2, c3, n3, if_true, if_false] at h
      rw [show (10 : Nat) = 9 + 1 from rfl, bytes_succ] at h
      simp only [List.cons.injEq] at h
      refine ⟨9, by rw [if_neg c2, if_neg c3],
        by simp only [fracSize, c1, c2, c3, if_true, if_false], h.1, ?_, ?_, ?_⟩
      · rw [h.2]
        simp
      · simp
      · simp only [Nat.reduceSub, Nat.reducePow, Nat.pow_zero, Nat.div_one]
        omega

/-- The offset suffix, byte by byte. -/
theorem offset_bytes (b : Buf) (p : Nat) (offset : Int) (h1 : -1439 ≤ offset)
    (h2 : offset ≤ 1439)
    (h : bytes b p (if offset ≠ 0 then 6 else 1) = renderOffset offset) :
    (offset = 0 → b p = 90) ∧
    (offset ≠ 0 → b p = (if offset < 0 then 45 else 43) ∧
      b (p + 1) = 48 + offset.natAbs / 60 / 10 % 10 ∧ b (p + 2) = 48 + offset.natAbs / 60 % 10 ∧
      b (p + 3) = 58 ∧ b (p + 4) = 48 + offset.natAbs % 60 / 10 % 10 ∧
      b (p + 5) = 48 + offset.natAbs % 60 % 10 ∧
      bytes b p 6 = (if offset < 0 then 45 else 43) ::
        (pad 2 (offset.natAbs / 60) ++ [58] ++ pad 2 (offset.natAbs % 60))) := by
  constructor
  · intro h0
    subst h0
    simp only [ne_eq, not_true_eq_false, if_false, renderOffset, if_true] at h
    have e := bytes_eq_get b p 1 _ h 0 (by simp)
    simpa using e
  · intro h0
    simp only [if_pos h0, renderOffset, if_neg h0] at h
    have e0 := bytes_eq_get b p 6 _ h 0 (by simp [pad_length])
    have e1 := bytes_eq_get b p 6 _ h 1 (by simp [pad_length])
    have e2 := bytes_eq_get b p 6 _ h 2 (by simp [pad_length])
    have e3 := bytes_eq_get b p 6 _ h 3 (by simp [pad_length])
    have e4 := bytes_eq_get b p 6 _ h 4 (by simp [pad_length])
    have e5 := bytes_eq_get b p 6 _ h 5 (by simp [pad_length])
    simp only [pad, List.nil_append, List.cons_append, List.getElem_cons_zero,
      List.getElem_cons_succ, Nat.add_zero] at e0 e1 e2 e3 e4 e5
    exact ⟨e0, e1, e2, e3, e4, e5, h⟩

theorem digitsValue_two (b : Buf) (i j x : Nat) (hj : j = i + 1) (hx : x < 100)
    (h1 : b i = 48 + x / 10 % 10) (h2 : b j = 48 + x % 10) :
    digitsValue (bytes b i 2) = x := by
  subst hj
  rw [bytes_two, h1, h2]
  simp only [digitsValue, List.foldl_cons, List.foldl_nil]
  omega

theorem digitsValue_four (b : Buf) (x : Nat) (hx : x < 10000)
    (h0 : b 0 = 48 + x / 1000 % 10) (h1 : b 1 = 48 + x / 100 % 10)
    (h2 : b 2 = 48 + x / 10 % 10) (h3 : b 3 = 48 + x % 10) :
    digitsValue (bytes b 0 4) = x := by
  rw [bytes_four]
  simp only [Nat.zero_add, h0, h1, h2, h3, digitsValue, List.foldl_cons, List.foldl_nil]
  omega

/-- C6: every string produced by a successful `timestamp_format` call has the layout
`YYYY-MM-DDThh:mm:ss[.fff|.ffffff|.fffffffff](Z|+hh:mm|-hh:mm)`: an ASCII digit at every
digit position, the literals `-`, `-`, `T`, `:`, `:` at indices 4, 7, 10, 13, 16, and
numeric fields in range (year 1..9999, month 1..12, day 1..31, hour 0..23, minute and second
0..59, offset hour 0..23, offset minute 0..59). -/
theorem C6_output_well_formed (dst : Buf) (len : Nat) (t : timestamp_t) (n : Nat)
    (hwf : t.wf) (h : (timestamp_format dst len t).map Prod.fst = some n) (hn : 0 < n) :
    ∃ b, timestamp_format dst len t = some (n, b) ∧
      (∀ i ∈ [0, 1, 2, 3, 5, 6, 8, 9, 11, 12, 14, 15, 17, 18], isDigit (b i)) ∧
      b 4 = 45 ∧ b 7 = 45 ∧ b 10 = 84 ∧ b 13 = 58 ∧ b 16 = 58 ∧
      (1 ≤ digitsValue (bytes b 0 4) ∧ digitsValue (bytes b 0 4) ≤ 9999) ∧
      (1 ≤ digitsValue (bytes b 5 2) ∧ digitsValue (bytes b 5 2) ≤ 12) ∧
      (1 ≤ digitsValue (bytes b 8 2) ∧ digitsValue (bytes b 8 2) ≤ 31) ∧
      digitsValue (bytes b 11 2) ≤ 23 ∧ digitsValue (bytes b 14 2) ≤ 59 ∧
      digitsValue (bytes b 17 2) ≤ 59 ∧
      ∃ k, (k = 0 ∨ ((k = 4 ∨ k = 7 ∨ k = 10) ∧ b 19 = 46 ∧
              ∀ i, 20 ≤ i → i < 19 + k → isDigit (b i))) ∧
        ((b (19 + k) = 90 ∧ n = 19 + k + 1) ∨
         ((b (19 + k) = 43 ∨ b (19 + k) = 45) ∧
            isDigit (b (19 + k + 1)) ∧ isDigit (b (19 + k + 2)) ∧ b (19 + k + 3) = 58 ∧
            isDigit (b (19 + k + 4)) ∧ isDigit (b (19 + k + 5)) ∧ n = 19 + k + 6 ∧
            digitsValue (bytes b (19 + k + 1) 2) ≤ 23 ∧
            digitsValue (bytes b (19 + k + 4) 2) ≤ 59)) := by
  obtain ⟨b, h⟩ := ret_some _ n h
  obtain ⟨y, m, d, hv, -, hvd, -, hsod, hnv, s1, s2, s3, -, -⟩ :=
    success_segments dst len t n b hwf h hn
  obtain ⟨-, -, hn0, hn1, ho0, ho1⟩ := hv
  obtain ⟨hy1, hy2, hm1, hm2, hd1, hd2⟩ := hvd
  have hd31 : d ≤ 31 := by
    have : monthLength y m ≤ 31 := by
      simp only [monthLength]
      split_ifs <;> omega
    omega
  obtain ⟨b0, b1, b2, b3, b4, b5, b6, b7, b8, b9, b10, b11, b12, b13, b14, b15, b16, b17, b18⟩
    := dateTime_bytes b y m d (localSod t) s1
  refine ⟨b, h, ?_, b4, b7, b10, b13, b16, ?_, ?_, ?_, ?_, ?_, ?_, fracSize t.nsec, ?_, ?_⟩
  · intro i hi
    simp only [List.mem_cons, List.mem_singleton, List.mem_nil_iff, or_false] at hi
    simp only [isDigit]
    rcases hi with rfl | rfl | rfl | rfl | rfl | rfl | rfl | rfl | rfl | rfl | rfl | rfl | rfl | rfl
    all_goals omega
  · rw [digitsValue_four b y (by omega) b0 b1 b2 b3]
    omega
  · rw [digitsValue_two b 5 6 m rfl (by omega) b5 b6]
    omega
  · rw [digitsValue_two b 8 9 d rfl (by omega) b8 b9]
    omega
  · rw [digitsValue_two b 11 12 (localSod t / 3600) rfl (by omega) b11 b12]
    omega
  · rw [digitsValue_two b 14 15 (localSod t / 60 % 60) rfl (by omega) b14 b15]
    omega
  · rw [digitsValue_two b 17 18 (localSod t % 60) rfl (by omega) b17 b18]
    omega
  · by_cases c1 : t.nsec = 0
    · left
      simp only [fracSize, c1, if_true]
    · right
      obtain ⟨k, -, hk1, hdot, hdig, -, -⟩ := frac_bytes b t.nsec (by omega) hn1 s2
      have hF : fracSize t.nsec = 4 ∨ fracSize t.nsec = 7 ∨ fracSize t.nsec = 10 := by
        simp only [fracSize, c1, if_false]
        split_ifs <;> simp
      refine ⟨hF, hdot, ?_⟩
      intro i hi1 hi2
      have e := bytes_eq_get b 20 k _ hdig (i - 20) (by rw [pad_length]; omega)
      rw [show 20 + (i - 20) = i by omega] at e
      rw [e]
      exact pad_isDigit _ _ _ (List.getElem_mem _)
  · obtain ⟨hz, hs⟩ := offset_bytes b (19 + fracSize t.nsec) t.offset ho0 ho1 s3
    by_cases c0 : t.offset = 0
    · left
      refine ⟨hz c0, ?_⟩
      rw [hnv, if_neg (by simpa using c0)]
    · right
      obtain ⟨e0, e1, e2, e3, e4, e5, -⟩ := hs c0
      have hb : t.offset.natAbs ≤ 1439 := by omega
      refine ⟨?_, ?_, ?_, e3, ?_, ?_, ?_, ?_, ?_⟩
      · rw [e0]
        split_ifs <;> simp
      · rw [e1]
        simp only [isDigit]
        omega
      · rw [e2]
        simp only [isDigit]
        omega
      · rw [e4]
        simp only [isDigit]
        omega
      · rw [e5]
        simp only [isDigit]
        omega
      · rw [hnv, if_pos c0]
      · rw [digitsValue_two b _ _ (t.offset.natAbs / 60) rfl (by omega) e1 e2]
        omega
      · rw [digitsValue_two b _ _ (t.offset.natAbs % 60) (by omega) (by omega) e4 e5]
        omega

theorem C6_output_well_formed_witness :
    (⟨1700000000, 1000, -330⟩ : timestamp_t).wf ∧
    (timestamp_format (fun _ => 35) 40 ⟨1700000000, 1000, -330⟩).map Prod.fst = some 32 ∧
    0 < 32 ∧
    ∃ b, timestamp_format (fun _ => 35) 40 ⟨1700000000, 1000, -330⟩ = some (32, b) ∧
      (∀ i ∈ [0, 1, 2, 3, 5, 6, 8, 9, 11, 12, 14, 15, 17, 18], isDigit (b i)) ∧
      b 4 = 45 ∧ b 7 = 45 ∧ b 10 = 84 ∧ b 13 = 58 ∧ b 16 = 58 ∧
      (1 ≤ digitsValue (bytes b 0 4) ∧ digitsValue (bytes b 0 4) ≤ 9999) ∧
      (1 ≤ digitsValue (bytes b 5 2) ∧ digitsValue (bytes b 5 2) ≤ 12) ∧
      (1 ≤ digitsValue (bytes b 8 2) ∧ digitsValue (bytes b 8 2) ≤ 31) ∧
      digitsValue (bytes b 11 2) ≤ 23 ∧ digitsValue (bytes b 14 2) ≤ 59 ∧
      digitsValue (bytes b 17 2) ≤ 59 ∧
      ∃ k, (k = 0 ∨ ((k = 4 ∨ k = 7 ∨ k = 10) ∧ b 19 = 46 ∧
              ∀ i, 20 ≤ i → i < 19 + k → isDigit (b i))) ∧
        ((b (19 + k) = 90 ∧ 32 = 19 + k + 1) ∨
         ((b (19 + k) = 43 ∨ b (19 + k) = 45) ∧
            isDigit (b (19 + k + 1)) ∧ isDigit (b (19 + k + 2)) ∧ b (19 + k + 3) = 58 ∧
            isDigit (b (19 + k + 4)) ∧ isDigit (b (19 + k + 5)) ∧ 32 = 19 + k + 6 ∧
            digitsValue (bytes b (19 + k + 1) 2) ≤ 23 ∧
            digitsValue (bytes b (19 + k + 4) 2) ≤ 59)) :=
  ⟨by decide, by decide, by decide,
    C6_output_well_formed (fun _ => 35) 40 ⟨1700000000, 1000, -330⟩ 32 (by decide)
      (by decide) (by decide)⟩

/-- C7: for every successful `timestamp_format` call returning `n > 0`, the byte at index
`n` of the buffer after the call is 0 and none of the bytes at indices `0..n-1` is 0, so the
C string length of the buffer is `n`. -/
theorem C7_terminator_and_length (dst : Buf) (len : Nat) (t : timestamp_t) (n : Nat)
    (hwf : t.wf) (h : (timestamp_format dst len t).map Prod.fst = some n) (hn : 0 < n) :
    ∃ b, timestamp_format dst len t = some (n, b) ∧
      b n = 0 ∧ (∀ i, i < n → b i ≠ 0) ∧
      (∀ k, b k = 0 → (∀ i, i < k → b i ≠ 0) → k = n) := by
  obtain ⟨b, h⟩ := ret_some _ n h
  obtain ⟨y, m, d, -, -, -, -, -, -, -, -, -, hz, -⟩ := success_segments dst len t n b hwf h hn
  have hnz := success_nonzero dst len t n b hwf h hn
  refine ⟨b, h, hz, fun i hi => by have := (hnz i hi).1; omega, ?_⟩
  intro k hk hlt
  by_contra hne
  rcases Nat.lt_or_gt_of_ne hne with h1 | h1
  · have := (hnz k h1).1
    omega
  · exact hlt n h1 hz

theorem C7_terminator_and_length_witness :
    (⟨1700000000, 1000, -330⟩ : timestamp_t).wf ∧
    (timestamp_format (fun _ => 35) 40 ⟨1700000000, 1000, -330⟩).map Prod.fst = some 32 ∧
    0 < 32 ∧
    ∃ b, timestamp_format (fun _ => 35) 40 ⟨1700000000, 1000, -330⟩ = some (32, b) ∧
      b 32 = 0 ∧ (∀ i, i < 32 → b i ≠ 0) ∧
      (∀ k, b k = 0 → (∀ i, i < k → b i ≠ 0) → k = 32) :=
  ⟨by decide, by decide, by decide,
    C7_terminator_and_length (fun _ => 35) 40 ⟨1700000000, 1000, -330⟩ 32 (by decide)
      (by decide) (by decide)⟩

/-- C8: fractional seconds, for every valid timestamp that formats successfully.  If
`nsec = 0` there is no `.` in the output and the byte at index 19 is `Z`, `+` or `-`.
Otherwise index 19 is `.`, followed by exactly `k` digits, `k = 3` if `nsec` is divisible by
1000000, `k = 6` if divisible by 1000 but not by 1000000, `k = 9` otherwise; the digits are
the zero-padded decimal of `nsec / 10^(9-k)`, and their value times `10^(9-k)` is `nsec`.
In particular `nsec = 500000000` gives `.500`, `nsec = 1000` gives `.000001` and `nsec = 1`
gives `.000000001`. -/
theorem C8_fractional_seconds (dst : Buf) (len : Nat) (t : timestamp_t) (n : Nat)
    (hv : validTimestamp t) (h : (timestamp_format dst len t).map Prod.fst = some n)
    (hn : 0 < n) :
    ∃ b, timestamp_format dst len t = some (n, b) ∧
      (t.nsec = 0 → (b 19 = 90 ∨ b 19 = 43 ∨ b 19 = 45) ∧ ∀ i, i < n → b i ≠ 46) ∧
      (t.nsec ≠ 0 →
        ∃ k, k = (if t.nsec % 1000000 = 0 then 3 else if t.nsec % 1000 = 0 then 6 else 9) ∧
          b 19 = 46 ∧ bytes b 20 k = pad k (t.nsec.toNat / 10 ^ (9 - k)) ∧
          (∀ c ∈ bytes b 20 k, isDigit c) ∧ ¬ isDigit (b (20 + k)) ∧
          t.nsec.toNat / 10 ^ (9 - k) < 10 ^ k ∧
          ((digitsValue (bytes b 20 k) * 10 ^ (9 - k) : Nat) : Int) = t.nsec) ∧
      (t.nsec = 500000000 → bytes b 19 4 = ascii ".500") ∧
      (t.nsec = 1000 → bytes b 19 7 = ascii ".000001") ∧
      (t.nsec = 1 → bytes b 19 10 = ascii ".000000001") := by
  obtain ⟨b, h⟩ := ret_some _ n h
  obtain ⟨y, m, d, -, -, -, -, -, hnv, -, s2, s3, -, -⟩ :=
    success_segments dst len t n b (wf_of_valid t hv) h hn
  have hnz := success_nonzero dst len t n b (wf_of_valid t hv) h hn
  obtain ⟨-, -, hn0, hn1, ho0, ho1⟩ := hv
  obtain ⟨hz, hs⟩ := offset_bytes b (19 + fracSize t.nsec) t.offset ho0 ho1 s3
  have hsep : b (19 + fracSize t.nsec) = 90 ∨ b (19 + fracSize t.nsec) = 43 ∨
      b (19 + fracSize t.nsec) = 45 := by
    by_cases c0 : t.offset = 0
    · exact Or.inl (hz c0)
    · right
      rw [(hs c0).1]
      split_ifs
      · exact Or.inr rfl
      · exact Or.inl rfl
  refine ⟨b, h, ?_, ?_, ?_, ?_, ?_⟩
  · intro c1
    have hf : fracSize t.nsec = 0 := by simp only [fracSize, c1, if_true]
    rw [hf] at hsep
    exact ⟨hsep, fun i hi => (hnz i hi).2 c1⟩
  · intro c1
    obtain ⟨k, hk, hk1, hdot, hdig, hexact, hlt⟩ := frac_bytes b t.nsec (by omega) hn1 s2
    refine ⟨k, hk, hdot, hdig, ?_, ?_, hlt, ?_⟩
    · intro c hc
      rw [hdig] at hc
      exact pad_isDigit _ _ _ hc
    · rw [hk1] at hsep
      rw [show 20 + k = 19 + (k + 1) by omega]
      simp only [isDigit]
      omega
    · rw [hdig, digitsValue_pad, Nat.mod_eq_of_lt hlt, hexact]
      omega
  · intro c
    rw [c] at s2
    rw [show fracSize 500000000 = 4 from rfl] at s2
    rw [s2]
    decide
  · intro c
    rw [c] at s2
    rw [show fracSize 1000 = 7 from rfl] at s2
    rw [s2]
    decide
  · intro c
    rw [c] at s2
    rw [show fracSize 1 = 10 from rfl] at s2
    rw [s2]
    decide

theorem C8_fractional_seconds_witness :
    validTimestamp ⟨1700000000, 500000000, 60⟩ ∧
    (timestamp_format (fun _ => 35) 40 ⟨1700000000, 500000000, 60⟩).map Prod.fst = some 29 ∧
    0 < 29 ∧
    ∃ b, timestamp_format (fun _ => 35) 40 ⟨1700000000, 500000000, 60⟩ = some (29, b) ∧
      ((500000000 : Int) = 0 → (b 19 = 90 ∨ b 19 = 43 ∨ b 19 = 45) ∧ ∀ i, i < 29 → b i ≠ 46) ∧
      ((500000000 : Int) ≠ 0 →
        ∃ k, k = (if (500000000 : Int) % 1000000 = 0 then 3
            else if (500000000 : Int) % 1000 = 0 then 6 else 9) ∧
          b 19 = 46 ∧ bytes b 20 k = pad k ((500000000 : Int).toNat / 10 ^ (9 - k)) ∧
          (∀ c ∈ bytes b 20 k, isDigit c) ∧ ¬ isDigit (b (20 + k)) ∧
          (500000000 : Int).toNat / 10 ^ (9 - k) < 10 ^ k ∧
          ((digitsValue (bytes b 20 k) * 10 ^ (9 - k) : Nat) : Int) = 500000000) ∧
      ((500000000 : Int) = 500000000 → bytes b 19 4 = ascii ".500") ∧
      ((500000000 : Int) = 1000 → bytes b 19 7 = ascii ".000001") ∧
      ((500000000 : Int) = 1 → bytes b 19 10 = ascii ".000000001") :=
  ⟨by decide, by decide, by decide,
    C8_fractional_seconds (fun _ => 35) 40 ⟨1700000000, 500000000, 60⟩ 29 (by decide)
      (by decide) (by decide)⟩

/-- C9: offset suffix, for every valid timestamp that formats successfully.  The output
ends in the byte `Z` if and only if `offset = 0`; otherwise it ends in the six bytes
`s h1 h2 : m1 m2` with `s` equal to `+` for a positive and `-` for a negative offset,
`h1 h2` the two-digit decimal of `|offset| / 60` and `m1 m2` that of `|offset| mod 60`.  In
particular offset -330 gives `-05:30`, offset 60 gives `+01:00` and offset 0 gives `Z`. -/
theorem C9_offset_suffix (dst : Buf) (len : Nat) (t : timestamp_t) (n : Nat)
    (hv : validTimestamp t) (h : (timestamp_format dst len t).map Prod.fst = some n)
    (hn : 0 < n) :
    ∃ b, timestamp_format dst len t = some (n, b) ∧
      (b (n - 1) = 90 ↔ t.offset = 0) ∧
      (t.offset ≠ 0 → 6 ≤ n ∧
        bytes b (n - 6) 6 = (if 0 < t.offset then 43 else 45) ::
          (pad 2 (t.offset.natAbs / 60) ++ [58] ++ pad 2 (t.offset.natAbs % 60)) ∧
        t.offset.natAbs / 60 ≤ 23 ∧ t.offset.natAbs % 60 ≤ 59) ∧
      (t.offset = -330 → bytes b (n - 6) 6 = ascii "-05:30") ∧
      (t.offset = 60 → bytes b (n - 6) 6 = ascii "+01:00") ∧
      (t.offset = 0 → bytes b (n - 1) 1 = ascii "Z") := by
  obtain ⟨b, h⟩ := ret_some _ n h
  obtain ⟨y, m, d, -, -, -, -, -, hnv, -, -, s3, -, -⟩ :=
    success_segments dst len t n b (wf_of_valid t hv) h hn
  obtain ⟨-, -, hn0, hn1, ho0, ho1⟩ := hv
  obtain ⟨hz, hs⟩ := offset_bytes b (19 + fracSize t.nsec) t.offset ho0 ho1 s3
  have hsigned : t.offset ≠ 0 → n - 6 = 19 + fracSize t.nsec ∧ 6 ≤ n := by
    intro c0
    rw [hnv, if_pos c0]
    omega
  have hzero : t.offset = 0 → n - 1 = 19 + fracSize t.nsec := by
    intro c0
    rw [hnv, if_neg (by simpa using c0)]
    omega
  have hsix : t.offset ≠ 0 → bytes b (n - 6) 6 = (if 0 < t.offset then 43 else 45) ::
      (pad 2 (t.offset.natAbs / 60) ++ [58] ++ pad 2 (t.offset.natAbs % 60)) := by
    intro c0
    rw [(hsigned c0).1, (hs c0).2.2.2.2.2.2]
    by_cases cs : t.offset < 0
    · rw [if_pos cs, if_neg (by omega)]
    · rw [if_neg cs, if_pos (by omega)]
  refine ⟨b, h, ?_, ?_, ?_, ?_, ?_⟩
  · constructor
    · intro hl
      by_contra c0
      have e5 := (hs c0).2.2.2.2.2.1
      have hp : n - 1 = 19 + fracSize t.nsec + 5 := by
        have := hsigned c0
        omega
      rw [hp, e5] at hl
      omega
    · intro c0
      rw [hzero c0]
      exact hz c0
  · intro c0
    exact ⟨(hsigned c0).2, hsix c0, by omega, by omega⟩
  · intro c
    rw [hsix (by omega), c]
    decide
  · intro c
    rw [hsix (by omega), c]
    decide
  · intro c
    rw [show (1 : Nat) = 0 + 1 from rfl, bytes_succ, hzero c, hz c]
    rw [show bytes b (19 + fracSize t.nsec + 1) 0 = [] from rfl]
    decide

theorem C9_offset_suffix_witness :
    validTimestamp ⟨1700000000, 0, -330⟩ ∧
    (timestamp_format (fun _ => 35) 40 ⟨1700000000, 0, -330⟩).map Prod.fst = some 25 ∧
    0 < 25 ∧
    ∃ b, timestamp_format (fun _ => 35) 40 ⟨1700000000, 0, -330⟩ = some (25, b) ∧
      (b (25 - 1) = 90 ↔ (-330 : Int) = 0) ∧
      ((-330 : Int) ≠ 0 → 6 ≤ 25 ∧
        bytes b (25 - 6) 6 = (if 0 < (-330 : Int) then 43 else 45) ::
          (pad 2 ((-330 : Int).natAbs / 60) ++ [58] ++ pad 2 ((-330 : Int).natAbs % 60)) ∧
        (-330 : Int).natAbs / 60 ≤ 23 ∧ (-330 : Int).natAbs % 60 ≤ 59) ∧
      ((-330 : Int) = -330 → bytes b (25 - 6) 6 = ascii "-05:30") ∧
      ((-330 : Int) = 60 → bytes b (25 - 6) 6 = ascii "+01:00") ∧
      ((-330 : Int) = 0 → bytes b (25 - 1) 1 = ascii "Z") :=
  ⟨by decide, by decide, by decide,
    C9_offset_suffix (fun _ => 35) 40 ⟨1700000000, 0, -330⟩ 25 (by decide) (by decide)
      (by decide)⟩

theorem format_text (dst : Buf) (len : Nat) (t : timestamp_t) (y m d : Nat)
    (hv : validTimestamp t) (hlen : requiredSize t ≤ len)
    (hymd : rdn_to_ymd (localDays t + 1) = some (y, m, d)) :
    ∃ b, timestamp_format dst len t = some (requiredSize t - 1, b) ∧
      bytes b 0 (requiredSize t - 1)
        = renderDateTime y m d (localSod t) ++ renderFrac t.nsec.toNat
          ++ renderOffset t.offset := by
  obtain ⟨y', m', d', hymd', -, -, hfmt⟩ := timestamp_format_ok dst len t hv hlen
  rw [hymd] at hymd'
  simp only [Option.some.injEq, Prod.mk.injEq] at hymd'
  obtain ⟨rfl, rfl, rfl⟩ := hymd'
  refine ⟨_, hfmt, ?_⟩
  have hl : (renderDateTime y m d (localSod t) ++ renderFrac t.nsec.toNat
      ++ renderOffset t.offset).length = requiredSize t - 1 := by
    rw [List.length_append, List.length_append, renderDateTime_length,
      renderFrac_length _ hv.2.2.1, renderOffset_length]
    simp only [requiredSize]
    split_ifs <;> omega
  have e := bytes_blit_head dst (renderDateTime y m d (localSod t) ++ renderFrac t.nsec.toNat
      ++ renderOffset t.offset) [0]
  rw [hl] at e
  exact e

/-- C10: boundary instants, with `offset = 0`, `nsec = 0` and a capacity of at least 21:
on `sec = -62135596800` the call returns 20 and writes `0001-01-01T00:00:00Z`, on
`sec = 253402300799` it returns 20 and writes `9999-12-31T23:59:59Z`, and on
`sec = -62135596801` and `sec = 253402300800` it returns 0. -/
theorem C10_boundary_instants (dst : Buf) (len : Nat) (hlen : 21 ≤ len) :
    (∃ b, timestamp_format dst len ⟨-62135596800, 0, 0⟩ = some (20, b) ∧
      bytes b 0 20 = ascii "0001-01-01T00:00:00Z") ∧
    (∃ b, timestamp_format dst len ⟨253402300799, 0, 0⟩ = some (20, b) ∧
      bytes b 0 20 = ascii "9999-12-31T23:59:59Z") ∧
    timestamp_format dst len ⟨-62135596801, 0, 0⟩ = some (0, dst) ∧
    timestamp_format dst len ⟨253402300800, 0, 0⟩ = some (0, dst) := by
  refine ⟨?_, ?_, ?_, ?_⟩
  · obtain ⟨b, hb, hbytes⟩ := format_text dst len ⟨-62135596800, 0, 0⟩ 1 1 1 (by decide)
      (by simpa [requiredSize, fracSize] using hlen) (by decide)
    refine ⟨b, hb, ?_⟩
    rw [show requiredSize ⟨-62135596800, 0, 0⟩ - 1 = 20 from rfl] at hbytes
    rw [hbytes]
    decide
  · obtain ⟨b, hb, hbytes⟩ := format_text dst len ⟨253402300799, 0, 0⟩ 9999 12 31 (by decide)
      (by simpa [requiredSize, fracSize] using hlen) (by decide)
    refine ⟨b, hb, ?_⟩
    rw [show requiredSize ⟨253402300799, 0, 0⟩ - 1 = 20 from rfl] at hbytes
    rw [hbytes]
    decide
  · exact timestamp_format_invalid dst len _ (by decide)
  · exact timestamp_format_invalid dst len _ (by decide)

theorem C10_boundary_instants_witness :
    21 ≤ 21 ∧
    ((∃ b, timestamp_format (fun _ => 35) 21 ⟨-62135596800, 0, 0⟩ = some (20, b) ∧
      bytes b 0 20 = ascii "0001-01-01T00:00:00Z") ∧
    (∃ b, timestamp_format (fun _ => 35) 21 ⟨253402300799, 0, 0⟩ = some (20, b) ∧
      bytes b 0 20 = ascii "9999-12-31T23:59:59Z") ∧
    timestamp_format (fun _ => 35) 21 ⟨-62135596801, 0, 0⟩ = some (0, fun _ => 35) ∧
    timestamp_format (fun _ => 35) 21 ⟨253402300800, 0, 0⟩ = some (0, fun _ => 35)) :=
  ⟨by decide, C10_boundary_instants (fun _ => 35) 21 (by decide)⟩

/-! ## Order and boundaries of the calendar converter -/

/-- C14: `rdn_to_ymd` is strictly monotone on its domain: for day numbers `d1 < d2` with
`1 ≤ d1` and `d2 ≤ 3652059`, the triple returned for `d1` is strictly smaller in
lexicographic order than the triple returned for `d2`; two day numbers of the domain with the
same triple are equal. -/
theorem C14_rdn_to_ymd_strictly_monotone (d1 d2 : Nat) (h1 : 1 ≤ d1) (hlt : d1 < d2)
    (h2 : d2 ≤ 3652059) :
    ∃ y1 m1 e1 y2 m2 e2, rdn_to_ymd d1 = some (y1, m1, e1) ∧ rdn_to_ymd d2 = some (y2, m2, e2) ∧
      (y1 < y2 ∨ (y1 = y2 ∧ (m1 < m2 ∨ (m1 = m2 ∧ e1 < e2)))) ∧
      (y1, m1, e1) ≠ (y2, m2, e2) ∧
      (∀ a b, 1 ≤ a → a ≤ 3652059 → 1 ≤ b → b ≤ 3652059 → rdn_to_ymd a = rdn_to_ymd b → a = b)
    := by
  obtain ⟨y1, m1, e1, hr1, hv1, hd1⟩ := rdn_to_ymd_gregorian d1 h1 (by omega)
  obtain ⟨y2, m2, e2, hr2, hv2, hd2⟩ := rdn_to_ymd_gregorian d2 (by omega) h2
  have hlex : dateLt y1 m1 e1 y2 m2 e2 := by
    by_contra hn
    have hc : (y1 = y2 ∧ m1 = m2 ∧ e1 = e2) ∨ dateLt y2 m2 e2 y1 m1 e1 := by
      simp only [dateLt] at hn ⊢
      omega
    rcases hc with ⟨rfl, rfl, rfl⟩ | hc
    · omega
    · have := rataDie_lt y2 m2 e2 y1 m1 e1 hv2 hv1 hc
      omega
  refine ⟨y1, m1, e1, y2, m2, e2, hr1, hr2, hlex, ?_, ?_⟩
  · intro he
    simp only [Prod.mk.injEq] at he
    simp only [dateLt] at hlex
    omega
  · intro a b ha1 ha2 hb1 hb2 hab
    obtain ⟨ya, ma, ea, hra, -, hda⟩ := rdn_to_ymd_gregorian a ha1 ha2
    obtain ⟨yb, mb, eb, hrb, -, hdb⟩ := rdn_to_ymd_gregorian b hb1 hb2
    rw [hra, hrb] at hab
    simp only [Option.some.injEq, Prod.mk.injEq] at hab
    obtain ⟨rfl, rfl, rfl⟩ := hab
    omega

theorem C14_rdn_to_ymd_strictly_monotone_witness :
    1 ≤ 693654 ∧ 693654 < 730179 ∧ 730179 ≤ 3652059 ∧
    ∃ y1 m1 e1 y2 m2 e2, rdn_to_ymd 693654 = some (y1, m1, e1) ∧
      rdn_to_ymd 730179 = some (y2, m2, e2) ∧
      (y1 < y2 ∨ (y1 = y2 ∧ (m1 < m2 ∨ (m1 = m2 ∧ e1 < e2)))) ∧
      (y1, m1, e1) ≠ (y2, m2, e2) ∧
      (∀ a b, 1 ≤ a → a ≤ 3652059 → 1 ≤ b → b ≤ 3652059 → rdn_to_ymd a = rdn_to_ymd b → a = b)
    :=
  ⟨by decide, by decide, by decide,
    C14_rdn_to_ymd_strictly_monotone 693654 730179 (by decide) (by decide) (by decide)⟩

/-- C15: leap-year boundaries of `rdn_to_ymd` (day 1 is 0001-01-01): day 730179 converts to
2000-02-29 and the next day to 2000-03-01; day 693654 converts to 1900-02-28 and the next
day, 693655, to 1900-03-01; no day number in `[1, 3652059]` converts to 1900-02-29, nor to
February 29 of any year divisible by 100 but not by 400. -/
theorem C15_leap_year_boundaries :
    rataDie 2000 2 29 = 730179 ∧ rataDie 1900 2 28 = 693654 ∧
    rdn_to_ymd 730179 = some (2000, 2, 29) ∧ rdn_to_ymd 730180 = some (2000, 3, 1) ∧
    rdn_to_ymd 693654 = some (1900, 2, 28) ∧ rdn_to_ymd 693655 = some (1900, 3, 1) ∧
    (∀ rdn, 1 ≤ rdn → rdn ≤ 3652059 → rdn_to_ymd rdn ≠ some (1900, 2, 29)) ∧
    (∀ rdn y, 1 ≤ rdn → rdn ≤ 3652059 → y % 100 = 0 → y % 400 ≠ 0 →
      rdn_to_ymd rdn ≠ some (y, 2, 29)) := by
  have hgen : ∀ rdn y, 1 ≤ rdn → rdn ≤ 3652059 → y % 100 = 0 → y % 400 ≠ 0 →
      rdn_to_ymd rdn ≠ some (y, 2, 29) := by
    intro rdn y h1 h2 h100 h400 he
    obtain ⟨y', m', d', hr, hv, -⟩ := rdn_to_ymd_gregorian rdn h1 h2
    rw [he] at hr
    simp only [Option.some.injEq, Prod.mk.injEq] at hr
    obtain ⟨rfl, rfl, rfl⟩ := hr
    obtain ⟨-, -, -, -, -, hd⟩ := hv
    have hl : isLeapYear y = false := by
      simp only [isLeapYear, decide_eq_false_iff_not]
      omega
    simp only [monthLength, hl, if_true, Bool.false_eq_true, if_false] at hd
    omega
  refine ⟨by decide, by decide, by decide, by decide, by decide, by decide, ?_, hgen⟩
  intro rdn h1 h2
  exact hgen rdn 1900 h1 h2 (by decide) (by decide)

/-! ## Domain of the converter and of the range check -/

theorem timestamp_format_calls (dst : Buf) (len : Nat) (tsp : timestamp_t) :
    timestamp_format dst len tsp =
      if timestamp_valid tsp = 0 then some (0, dst) else
      let r := fracLen (u32i tsp.nsec) (if tsp.offset ≠ 0 then 21 + 5 else 21)
      if r.2.2 > len then some (0, dst) else
      match rdn_to_ymd (dayNumber tsp) with
      | none => none
      | some (y, m, d) =>
        let b := fmtDate len (some dst) 0 y m d
        let b := fmtTime len b 10 (u32 (shiftedSec tsp % 86400))
        let bp := fmtFrac len b 19 r.1 r.2.1
        let bp := fmtOffset len bp.1 bp.2 tsp.offset
        (poke len bp.1 bp.2 0).map fun b => (bp.2, b) :=
  timestamp_format_stages dst len tsp

/-- C16: the converter is only called inside its domain.  For every timestamp accepted by
`timestamp_valid`, the shifted value `sec + 60*offset + 62135683200` that `timestamp_format`
computes is exact (no wraparound), lies in `[86400, 315537983999]` and is kept by the
conversion to unsigned 64-bit; the day number `rdn`, that value divided by 86400, lies in
`[1, 3652059]` and fits in 32 bits; the second of the day lies in `[0, 86399]`. -/
theorem C16_converter_called_in_domain (t : timestamp_t) (hwf : t.wf)
    (hacc : timestamp_valid t = 1) :
    wrap64 (wrap64 (t.sec + wrap32 (t.offset * 60)) + EPOCH)
      = t.sec + 60 * t.offset + 62135683200 ∧
    86400 ≤ t.sec + 60 * t.offset + 62135683200 ∧
    t.sec + 60 * t.offset + 62135683200 ≤ 315537983999 ∧
    (shiftedSec t : Int) = t.sec + 60 * t.offset + 62135683200 ∧
    dayNumber t = shiftedSec t / 86400 ∧ 1 ≤ dayNumber t ∧ dayNumber t ≤ 3652059 ∧
    shiftedSec t / 86400 < 4294967296 ∧
    shiftedSec t % 86400 ≤ 86399 ∧ u32 (shiftedSec t % 86400) = shiftedSec t % 86400 ∧
    ∃ y m d, rdn_to_ymd (dayNumber t) = some (y, m, d) := by
  have hv := (timestamp_valid_iff t hwf).1 hacc
  obtain ⟨w1, w2, w3⟩ := valid_wraps t hv
  obtain ⟨hs, hsod, hdays⟩ := valid_sec t hv
  have hS : shiftedSec t = 86400 * (localDays t + 1) + localSod t := hs
  obtain ⟨hd, hso⟩ := local_days_sod t hv
  obtain ⟨h1, h2, -⟩ := hv
  simp only [localSec] at h1 h2 hd hso w2 w3
  have hq : shiftedSec t / 86400 = localDays t + 1 := by omega
  have hr : shiftedSec t % 86400 = localSod t := by omega
  have hdn : dayNumber t = shiftedSec t / 86400 := by
    simp only [dayNumber, u32]
    omega
  obtain ⟨y, m, d, hymd, -, -⟩ := rdn_to_ymd_gregorian (localDays t + 1) (by omega) hdays
  refine ⟨?_, by omega, by omega, by omega, hdn, by omega, by omega, by omega, by omega, ?_,
    y, m, d, ?_⟩
  · rw [w1, w2, w3]
    rfl
  · simp only [u32]
    omega
  · rw [hdn, hq]
    exact hymd

theorem C16_converter_called_in_domain_witness :
    (⟨253402300799, 0, 0⟩ : timestamp_t).wf ∧ timestamp_valid ⟨253402300799, 0, 0⟩ = 1 ∧
    (wrap64 (wrap64 ((253402300799 : Int) + wrap32 ((0 : Int) * 60)) + EPOCH)
      = (253402300799 : Int) + 60 * 0 + 62135683200 ∧
    86400 ≤ (253402300799 : Int) + 60 * 0 + 62135683200 ∧
    (253402300799 : Int) + 60 * 0 + 62135683200 ≤ 315537983999 ∧
    (shiftedSec ⟨253402300799, 0, 0⟩ : Int) = (253402300799 : Int) + 60 * 0 + 62135683200 ∧
    dayNumber ⟨253402300799, 0, 0⟩ = shiftedSec ⟨253402300799, 0, 0⟩ / 86400 ∧
    1 ≤ dayNumber ⟨253402300799, 0, 0⟩ ∧ dayNumber ⟨253402300799, 0, 0⟩ ≤ 3652059 ∧
    shiftedSec ⟨253402300799, 0, 0⟩ / 86400 < 4294967296 ∧
    shiftedSec ⟨253402300799, 0, 0⟩ % 86400 ≤ 86399 ∧
    u32 (shiftedSec ⟨253402300799, 0, 0⟩ % 86400) = shiftedSec ⟨253402300799, 0, 0⟩ % 86400 ∧
    ∃ y m d, rdn_to_ymd (dayNumber ⟨253402300799, 0, 0⟩) = some (y, m, d)) :=
  ⟨by decide, by decide,
    C16_converter_called_in_domain ⟨253402300799, 0, 0⟩ (by decide) (by decide)⟩

/-- C18: the range check of `timestamp_valid` is not fooled by 64-bit overflow.  For every
signed 64-bit `sec` and every `nsec` and `offset` of the C type, with the sum
`sec + offset*60` taken with two's-complement wraparound, `timestamp_valid` returns 1 if
and only if the exact integer `sec + 60*offset` lies in `[-62135596800, 253402300799]`,
`nsec` in `[0, 999999999]` and `offset` in `[-1439, 1439]`, and returns 0 otherwise; an
accepted `sec` is never near the 64-bit limits. -/
theorem C18_range_check_exact (t : timestamp_t) (hwf : t.wf) :
    (timestamp_valid t = 1 ↔
      (-62135596800 ≤ t.sec + 60 * t.offset ∧ t.sec + 60 * t.offset ≤ 253402300799 ∧
        0 ≤ t.nsec ∧ t.nsec ≤ 999999999 ∧ -1439 ≤ t.offset ∧ t.offset ≤ 1439)) ∧
    (timestamp_valid t = 0 ∨ timestamp_valid t = 1) ∧
    (timestamp_valid t = 1 → -62135683140 ≤ t.sec ∧ t.sec ≤ 253402387139) ∧
    (9223372036854689467 ≤ t.sec ∨ t.sec ≤ -9223372036854689468 → timestamp_valid t = 0) := by
  have hiff := timestamp_valid_iff t hwf
  have h01 : timestamp_valid t = 0 ∨ timestamp_valid t = 1 := by
    by_cases hv : validTimestamp t
    · exact Or.inr (hiff.2 hv)
    · exact Or.inl (timestamp_valid_of_invalid t hwf hv)
  have hrange : timestamp_valid t = 1 → -62135683140 ≤ t.sec ∧ t.sec ≤ 253402387139 := by
    intro h
    have hv := hiff.1 h
    simp only [validTimestamp, localSec] at hv
    omega
  refine ⟨?_, h01, hrange, ?_⟩
  · rw [hiff]
    simp only [validTimestamp, localSec]
  · intro hnear
    rcases h01 with h0 | h1
    · exact h0
    · have := hrange h1
      omega

theorem C18_range_check_exact_witness :
    (⟨9223372036854775807, 0, 1439⟩ : timestamp_t).wf ∧
    ((timestamp_valid ⟨9223372036854775807, 0, 1439⟩ = 1 ↔
      (-62135596800 ≤ (9223372036854775807 : Int) + 60 * 1439 ∧
        (9223372036854775807 : Int) + 60 * 1439 ≤ 253402300799 ∧
        0 ≤ (0 : Int) ∧ (0 : Int) ≤ 999999999 ∧ -1439 ≤ (1439 : Int) ∧ (1439 : Int) ≤ 1439)) ∧
    (timestamp_valid ⟨9223372036854775807, 0, 1439⟩ = 0 ∨
      timestamp_valid ⟨9223372036854775807, 0, 1439⟩ = 1) ∧
    (timestamp_valid ⟨9223372036854775807, 0, 1439⟩ = 1 →
      -62135683140 ≤ (9223372036854775807 : Int) ∧ (9223372036854775807 : Int) ≤ 253402387139) ∧
    (9223372036854689467 ≤ (9223372036854775807 : Int) ∨
      (9223372036854775807 : Int) ≤ -9223372036854689468 →
      timestamp_valid ⟨9223372036854775807, 0, 1439⟩ = 0)) :=
  ⟨by decide, C18_range_check_exact ⟨9223372036854775807, 0, 1439⟩ (by decide)⟩

/-! ## Table reads of the calendar converter on every 32-bit input -/

theorem marchYear_day (rdn : Nat) : 1 ≤ (marchYear rdn).2 ∧ (marchYear rdn).2 ≤ 366 := by
  simp only [marchYear, u16, u32]
  split
  · simp only
    omega
  · simp only
    generalize (rdn + 305) % 4294967296 % 146097 % 36524 % 1461 = x
    omega

theorem monthPart_total (k d : Nat) (hd1 : 1 ≤ d) (hd2 : d ≤ 366) :
    ∃ m0 m off, m0 = (5 * d + 456) / 153 ∧ u16 (u32 (5 * d + 456) / 153) = m0 ∧
      3 ≤ m0 ∧ m0 ≤ 14 ∧ m = (if m0 > 12 then u16 (m0 - 12) else m0) ∧ 1 ≤ m ∧ m ≤ 12 ∧
      DayOffset[m]? = some off ∧ off < d ∧ d - off ≤ 31 ∧
      u16 (u32 (d + 4294967296 - off)) = d - off ∧
      ∃ yy, monthPart k d = some (yy, m, d - off) := by
  have e1 : (5 * d + 456) % 4294967296 = 5 * d + 456 := Nat.mod_eq_of_lt (by omega)
  have e2 : (5 * d + 456) / 153 % 65536 = (5 * d + 456) / 153 := Nat.mod_eq_of_lt (by omega)
  simp only [monthPart, u16, u32, e1, e2]
  obtain ⟨m0, hm0⟩ : ∃ m0, (5 * d + 456) / 153 = m0 := ⟨_, rfl⟩
  rw [hm0]
  have hm3 : 3 ≤ m0 := by omega
  have hm14 : m0 ≤ 14 := by omega
  clear e1 e2
  by_cases h12 : m0 ≤ 12
  · obtain ⟨off, len, hoff, hlen, -, hrange⟩ := marDec_table 1 m0 hm3 h12
    obtain ⟨hr1, hr2⟩ := hrange d hm0
    have hl31 : len ≤ 31 := by
      rw [← hlen]
      simp only [monthLength]
      split_ifs <;> omega
    refine ⟨m0, m0, off, rfl, rfl, hm3, hm14, by rw [if_neg (by omega)], by omega, h12, hoff,
      hr1, by omega, day_sub d off hr1 hd2, ?_⟩
    rw [if_neg (by omega)]
    simp only [hoff]
    rw [day_sub d off hr1 hd2]
    exact ⟨_, rfl⟩
  · have hm : m0 = 13 ∨ m0 = 14 := by omega
    rcases hm with rfl | rfl
    · refine ⟨13, 1, 306, rfl, rfl, hm3, hm14, by decide, by decide, by decide, rfl, by omega,
        by omega, day_sub d 306 (by omega) hd2, ?_⟩
      rw [if_pos (by decide)]
      rw [show DayOffset[(13 - 12) % 65536]? = some 306 from rfl]
      simp only
      rw [day_sub d 306 (by omega) hd2]
      exact ⟨_, rfl⟩
    · refine ⟨14, 2, 337, rfl, rfl, hm3, hm14, by decide, by decide, by decide, rfl, by omega,
        by omega, day_sub d 337 (by omega) hd2, ?_⟩
      rw [if_pos (by decide)]
      rw [show DayOffset[(14 - 12) % 65536]? = some 337 from rfl]
      simp only
      rw [day_sub d 337 (by omega) hd2]
      exact ⟨_, rfl⟩

/-- C17: `rdn_to_ymd` never reads its table out of bounds and never underflows in
`d - DayOffset[m]`, for every `rdn`, so for every 32-bit unsigned one (`rdn + 305` is taken
modulo `2^32`):
the March-based day of year `d` it reaches is in `[1, 366]`, the month `(5*d + 456) / 153`
is in `[3, 14]` and after adjustment in `[1, 12]`, so `DayOffset` is read only at an index in
`1..12`, and `d - DayOffset[month]` is in `[1, 31]`, without wraparound. -/
theorem C17_table_reads_in_bounds (rdn : Nat) :
    ∃ y d m0 m off, marchYear rdn = (y, d) ∧ 1 ≤ d ∧ d ≤ 366 ∧
      m0 = (5 * d + 456) / 153 ∧ u16 (u32 (5 * d + 456) / 153) = m0 ∧ 3 ≤ m0 ∧ m0 ≤ 14 ∧
      m = (if m0 > 12 then u16 (m0 - 12) else m0) ∧ 1 ≤ m ∧ m ≤ 12 ∧
      m < DayOffset.length ∧ DayOffset[m]? = some off ∧
      off < d ∧ 1 ≤ d - off ∧ d - off ≤ 31 ∧ u16 (u32 (d + 4294967296 - off)) = d - off ∧
      ∃ yy, rdn_to_ymd rdn = some (yy, m, d - off) := by
  obtain ⟨hd1, hd2⟩ := marchYear_day rdn
  obtain ⟨m0, m, off, e0, e1, h3, h14, em, hm1, hm12, hoff, hlt, h31, hsub, yy, hmp⟩ :=
    monthPart_total (marchYear rdn).1 (marchYear rdn).2 hd1 hd2
  refine ⟨(marchYear rdn).1, (marchYear rdn).2, m0, m, off, rfl, hd1, hd2, e0, e1, h3, h14, em,
    hm1, hm12, ?_, hoff, hlt, by omega, h31, hsub, yy, ?_⟩
  · simp only [DayOffset, List.length_cons, List.length_nil]
    omega
  · rw [rdn_to_ymd_eq]
    exact hmp

/-! ## Frame and determinism of the encoder -/

/-- A store that leaves a defined state was inside the capacity. -/
theorem poke_in_capacity (len : Nat) (b : Option Buf) (i v : Nat) (c : Buf)
    (h : poke len b i v = some c) : i < len := by
  cases b with
  | none => simp [poke] at h
  | some b =>
    by_contra hlt
    simp [poke, hlt] at h

theorem bytes_blit_all (b : Buf) (l : List Nat) : bytes (blit b 0 l) 0 l.length = l := by
  have h := bytes_blit_head b l []
  simpa using h

/-- The text and terminator a valid timestamp is rendered to, whatever the buffer and the
(sufficient) capacity. -/
theorem format_out (t : timestamp_t) (hv : validTimestamp t) :
    ∃ l : List Nat, l.length = requiredSize t ∧
      ∀ dst len, requiredSize t ≤ len →
        timestamp_format dst len t = some (requiredSize t - 1, blit dst 0 l) := by
  obtain ⟨-, -, hdays⟩ := valid_sec t hv
  obtain ⟨y, m, d, hymd, -, -⟩ := rdn_to_ymd_gregorian (localDays t + 1) (by omega) hdays
  refine ⟨renderDateTime y m d (localSod t) ++ renderFrac t.nsec.toNat
    ++ renderOffset t.offset ++ [0], ?_, ?_⟩
  · rw [List.length_append, List.length_append, List.length_append, renderDateTime_length,
      renderFrac_length _ hv.2.2.1, renderOffset_length]
    simp only [requiredSize, List.length_cons, List.length_nil]
    split_ifs <;> omega
  · intro dst len hlen
    obtain ⟨y', m', d', hymd', -, -, hfmt⟩ := timestamp_format_ok dst len t hv hlen
    rw [hymd] at hymd'
    simp only [Option.some.injEq, Prod.mk.injEq] at hymd'
    obtain ⟨rfl, rfl, rfl⟩ := hymd'
    exact hfmt

/-- C12: `timestamp_format` only writes within the given capacity.  For every successful
call returning `n` with capacity `len`: `n + 1 ≤ len`; every index it writes is at most `n`
(the same call with the capacity cut down to `n + 1` still succeeds, with the same result,
and a store at an index of `n + 1` or more would leave no defined result there); and every
byte at an index greater than `n` keeps the value it had before the call. -/
theorem C12_writes_within_capacity (dst : Buf) (len : Nat) (t : timestamp_t) (n : Nat)
    (hwf : t.wf) (h : (timestamp_format dst len t).map Prod.fst = some n) (hn : 0 < n) :
    ∃ b, timestamp_format dst len t = some (n, b) ∧ n + 1 ≤ len ∧
      timestamp_format dst (n + 1) t = some (n, b) ∧
      (∀ i, n < i → b i = dst i) := by
  obtain ⟨b, h⟩ := ret_some _ n h
  obtain ⟨y, m, d, hv, hlen, -, -, -, -, -, -, -, -, hframe⟩ :=
    success_segments dst len t n b hwf h hn
  obtain ⟨l, hl, hall⟩ := format_out t hv
  have h21 := requiredSize_ge t
  have e1 := hall dst len hlen
  rw [e1] at h
  simp only [Option.some.injEq, Prod.mk.injEq] at h
  obtain ⟨hn', hb⟩ := h
  have e2 := hall dst (n + 1) (by omega)
  refine ⟨b, ?_, by omega, ?_, hframe⟩
  · rw [e1, hn', hb]
  · rw [e2, hn', hb]

theorem C12_writes_within_capacity_witness :
    (⟨1700000000, 1000, -330⟩ : timestamp_t).wf ∧
    (timestamp_format (fun _ => 35) 40 ⟨1700000000, 1000, -330⟩).map Prod.fst = some 32 ∧
    0 < 32 ∧
    ∃ b, timestamp_format (fun _ => 35) 40 ⟨1700000000, 1000, -330⟩ = some (32, b) ∧
      32 + 1 ≤ 40 ∧
      timestamp_format (fun _ => 35) (32 + 1) ⟨1700000000, 1000, -330⟩ = some (32, b) ∧
      (∀ i, 32 < i → b i = (fun _ => 35) i) :=
  ⟨by decide, by decide, by decide,
    C12_writes_within_capacity (fun _ => 35) 40 ⟨1700000000, 1000, -330⟩ 32 (by decide)
      (by decide) (by decide)⟩

/-- C13: determinism of `timestamp_format`.  Two calls with the same timestamp and equally
sized buffers return the same value `n` and, on success, leave the same bytes at indices
`0..n`, whatever the buffers held before; a failing call leaves its buffer as it was; and
with any other sufficient capacity the return value and the written bytes are the same. -/
theorem C13_determinism (dst1 dst2 : Buf) (len : Nat) (t : timestamp_t) (hwf : t.wf) :
    ∃ n b1 b2, timestamp_format dst1 len t = some (n, b1) ∧
      timestamp_format dst2 len t = some (n, b2) ∧
      (0 < n → bytes b1 0 (n + 1) = bytes b2 0 (n + 1)) ∧
      (n = 0 → b1 = dst1 ∧ b2 = dst2) ∧
      (0 < n → ∀ len', n + 1 ≤ len' →
        ∃ b3, timestamp_format dst2 len' t = some (n, b3) ∧
          bytes b3 0 (n + 1) = bytes b1 0 (n + 1)) := by
  by_cases hv : validTimestamp t
  · have h21 := requiredSize_ge t
    by_cases hlen : requiredSize t ≤ len
    · obtain ⟨l, hl, hall⟩ := format_out t hv
      have hn1 : requiredSize t - 1 + 1 = l.length := by omega
      refine ⟨requiredSize t - 1, _, _, hall dst1 len hlen, hall dst2 len hlen, ?_, ?_, ?_⟩
      · intro _
        rw [hn1, bytes_blit_all, bytes_blit_all]
      · intro h0
        omega
      · intro _ len' hlen'
        refine ⟨_, hall dst2 len' (by omega), ?_⟩
        rw [hn1, bytes_blit_all, bytes_blit_all]
    · refine ⟨0, dst1, dst2, timestamp_format_short dst1 len t hv (by omega),
        timestamp_format_short dst2 len t hv (by omega), ?_, ?_, ?_⟩
      · intro h0
        omega
      · intro _
        exact ⟨rfl, rfl⟩
      · intro h0
        omega
  · have hz := timestamp_valid_of_invalid t hwf hv
    refine ⟨0, dst1, dst2, timestamp_format_invalid dst1 len t hz,
      timestamp_format_invalid dst2 len t hz, ?_, ?_, ?_⟩
    · intro h0
      omega
    · intro _
      exact ⟨rfl, rfl⟩
    · intro h0
      omega

theorem C13_determinism_witness :
    (⟨1700000000, 1000, -330⟩ : timestamp_t).wf ∧
    ∃ n b1 b2, timestamp_format (fun _ => 35) 40 ⟨1700000000, 1000, -330⟩ = some (n, b1) ∧
      timestamp_format (fun i => i % 256) 40 ⟨1700000000, 1000, -330⟩ = some (n, b2) ∧
      (0 < n → bytes b1 0 (n + 1) = bytes b2 0 (n + 1)) ∧
      (n = 0 → b1 = (fun _ => 35) ∧ b2 = (fun i => i % 256)) ∧
      (0 < n → ∀ len', n + 1 ≤ len' →
        ∃ b3, timestamp_format (fun i => i % 256) len' ⟨1700000000, 1000, -330⟩
            = some (n, b3) ∧
          bytes b3 0 (n + 1) = bytes b1 0 (n + 1)) :=
  ⟨by decide,
    C13_determinism (fun _ => 35) (fun i => i % 256) 40 ⟨1700000000, 1000, -330⟩ (by decide)⟩

/-! ## Reading the text back: lists of digits -/

theorem pad_inj (w x y : Nat) (hx : x < 10 ^ w) (hy : y < 10 ^ w) (h : pad w x = pad w y) :
    x = y := by
  have e := congrArg digitsValue h
  rw [digitsValue_pad, digitsValue_pad, Nat.mod_eq_of_lt hx, Nat.mod_eq_of_lt hy] at e
  exact e

theorem lexLt_cons (a b : Nat) (l1 l2 : List Nat) :
    lexLt (a :: l1) (b :: l2) = true ↔ a < b ∨ (a = b ∧ lexLt l1 l2 = true) := by
  simp [lexLt]

theorem lexLt_irrefl (l : List Nat) : lexLt l l = false := by
  induction l with
  | nil => rfl
  | cons a l ih => simp [lexLt, ih]

theorem lexLt_append (a1 a2 r1 r2 : List Nat) (hl : a1.length = a2.length) :
    lexLt (a1 ++ r1) (a2 ++ r2) = true ↔
      lexLt a1 a2 = true ∨ (a1 = a2 ∧ lexLt r1 r2 = true) := by
  induction a1 generalizing a2 with
  | nil =>
    cases a2 with
    | nil => simp [lexLt]
    | cons b a2 => simp at hl
  | cons a a1 ih =>
    cases a2 with
    | nil => simp at hl
    | cons b a2 =>
      simp only [List.length_cons, Nat.add_right_cancel_iff] at hl
      simp only [List.cons_append, lexLt_cons, ih a2 hl, List.cons.injEq]
      constructor
      · rintro (h | ⟨rfl, h | ⟨rfl, h⟩⟩)
        · exact Or.inl (Or.inl h)
        · exact Or.inl (Or.inr ⟨rfl, h⟩)
        · exact Or.inr ⟨⟨rfl, rfl⟩, h⟩
      · rintro ((h | ⟨rfl, h⟩) | ⟨⟨rfl, rfl⟩, h⟩)
        · exact Or.inl h
        · exact Or.inr ⟨rfl, Or.inl h⟩
        · exact Or.inr ⟨rfl, Or.inr ⟨rfl, h⟩⟩

theorem lexLt_pad (w x y : Nat) (hx : x < 10 ^ w) (hy : y < 10 ^ w) :
    lexLt (pad w x) (pad w y) = true ↔ x < y := by
  induction w generalizing x y with
  | zero =>
    simp only [Nat.pow_zero, Nat.lt_one_iff] at hx hy
    subst hx
    subst hy
    simp [pad, lexLt]
  | succ w ih =>
    have hx' : x / 10 < 10 ^ w := by
      rw [Nat.pow_succ] at hx
      omega
    have hy' : y / 10 < 10 ^ w := by
      rw [Nat.pow_succ] at hy
      omega
    rw [pad, pad, lexLt_append _ _ _ _ (by rw [pad_length, pad_length]), ih _ _ hx' hy',
      lexLt_cons]
    constructor
    · rintro (h | ⟨h1, h2 | ⟨h2, h3⟩⟩)
      · omega
      · have := pad_inj w _ _ hx' hy' h1
        omega
      · simp [lexLt] at h3
    · intro h
      by_cases hq : x / 10 < y / 10
      · exact Or.inl hq
      · have e : x / 10 = y / 10 := by omega
        refine Or.inr ⟨by rw [e], Or.inl (by omega)⟩

theorem lexLt_sep (c : Nat) (r1 r2 : List Nat) :
    lexLt ([c] ++ r1) ([c] ++ r2) = true ↔ lexLt r1 r2 = true := by
  simp [lexLt]

theorem pad_eq_iff (w x y : Nat) (hx : x < 10 ^ w) (hy : y < 10 ^ w) :
    pad w x = pad w y ↔ x = y :=
  ⟨pad_inj w x y hx hy, fun h => by rw [h]⟩

/-- The order of two rendered date-times is the order of their fields. -/
theorem renderDateTime_lexLt (y1 m1 d1 s1 y2 m2 d2 s2 : Nat)
    (hy1 : y1 < 10000) (hy2 : y2 < 10000) (hm1 : m1 < 100) (hm2 : m2 < 100)
    (hd1 : d1 < 100) (hd2 : d2 < 100) (hs1 : s1 < 86400) (hs2 : s2 < 86400) :
    lexLt (renderDateTime y1 m1 d1 s1) (renderDateTime y2 m2 d2 s2) = true ↔
      dateLt y1 m1 d1 y2 m2 d2 ∨ (y1 = y2 ∧ m1 = m2 ∧ d1 = d2 ∧ s1 < s2) := by
  have hh1 : s1 / 3600 < 10 ^ 2 := by norm_num; omega
  have hh2 : s2 / 3600 < 10 ^ 2 := by norm_num; omega
  have hi1 : s1 / 60 % 60 < 10 ^ 2 := by norm_num; omega
  have hi2 : s2 / 60 % 60 < 10 ^ 2 := by norm_num; omega
  have hc1 : s1 % 60 < 10 ^ 2 := by norm_num; omega
  have hc2 : s2 % 60 < 10 ^ 2 := by norm_num; omega
  simp only [renderDateTime, List.append_assoc]
  rw [lexLt_append _ _ _ _ (by rw [pad_length, pad_length]),
    lexLt_pad 4 y1 y2 (by norm_num; omega) (by norm_num; omega),
    pad_eq_iff 4 y1 y2 (by norm_num; omega) (by norm_num; omega), lexLt_sep,
    lexLt_append _ _ _ _ (by rw [pad_length, pad_length]),
    lexLt_pad 2 m1 m2 (by norm_num; omega) (by norm_num; omega),
    pad_eq_iff 2 m1 m2 (by norm_num; omega) (by norm_num; omega), lexLt_sep,
    lexLt_append _ _ _ _ (by rw [pad_length, pad_length]),
    lexLt_pad 2 d1 d2 (by norm_num; omega) (by norm_num; omega),
    pad_eq_iff 2 d1 d2 (by norm_num; omega) (by norm_num; omega), lexLt_sep,
    lexLt_append _ _ _ _ (by rw [pad_length, pad_length]),
    lexLt_pad 2 _ _ hh1 hh2, pad_eq_iff 2 _ _ hh1 hh2, lexLt_sep,
    lexLt_append _ _ _ _ (by rw [pad_length, pad_length]),
    lexLt_pad 2 _ _ hi1 hi2, pad_eq_iff 2 _ _ hi1 hi2, lexLt_sep,
    lexLt_pad 2 _ _ hc1 hc2]
  simp only [dateLt]
  constructor
  · intro h
    omega
  · intro h
    omega

/-- Two rendered date-times are equal only when their fields are. -/
theorem renderDateTime_inj (y1 m1 d1 s1 y2 m2 d2 s2 : Nat)
    (hy1 : y1 < 10000) (hy2 : y2 < 10000) (hm1 : m1 < 100) (hm2 : m2 < 100)
    (hd1 : d1 < 100) (hd2 : d2 < 100) (hs1 : s1 < 86400) (hs2 : s2 < 86400)
    (h : renderDateTime y1 m1 d1 s1 = renderDateTime y2 m2 d2 s2) :
    y1 = y2 ∧ m1 = m2 ∧ d1 = d2 ∧ s1 = s2 := by
  have e1 := renderDateTime_lexLt y1 m1 d1 s1 y2 m2 d2 s2 hy1 hy2 hm1 hm2 hd1 hd2 hs1 hs2
  have e2 := renderDateTime_lexLt y2 m2 d2 s2 y1 m1 d1 s1 hy2 hy1 hm2 hm1 hd2 hd1 hs2 hs1
  rw [h, lexLt_irrefl] at e1
  rw [h, lexLt_irrefl] at e2
  simp only [Bool.false_eq_true, false_iff, dateLt] at e1 e2
  omega

/-! ## Order and injectivity of the encoder -/

theorem dateLt_iff_rataDie (y1 m1 d1 y2 m2 d2 : Nat) (h1 : validDate y1 m1 d1)
    (h2 : validDate y2 m2 d2) :
    dateLt y1 m1 d1 y2 m2 d2 ↔ rataDie y1 m1 d1 < rataDie y2 m2 d2 := by
  constructor
  · exact rataDie_lt y1 m1 d1 y2 m2 d2 h1 h2
  · intro hlt
    by_contra hn
    have hc : (y1 = y2 ∧ m1 = m2 ∧ d1 = d2) ∨ dateLt y2 m2 d2 y1 m1 d1 := by
      simp only [dateLt] at hn ⊢
      omega
    rcases hc with ⟨rfl, rfl, rfl⟩ | hc
    · omega
    · have := rataDie_lt y2 m2 d2 y1 m1 d1 h2 h1 hc
      omega

theorem validDate_bounds (y m d : Nat) (h : validDate y m d) :
    y < 10000 ∧ m < 100 ∧ d < 100 := by
  obtain ⟨-, hy, -, hm, -, hd⟩ := h
  have : monthLength y m ≤ 31 := by
    simp only [monthLength]
    split_ifs <;> omega
  omega

/-- The text of a successful call: the rendering of the local date, the second of the day,
the fraction and the offset. -/
theorem format_render (dst : Buf) (len : Nat) (t : timestamp_t)
    (hv : validTimestamp t) (hlen : requiredSize t ≤ len) :
    ∃ y m d b, validDate y m d ∧ rataDie y m d = (localDays t : Int) + 1 ∧
      timestamp_format dst len t = some (requiredSize t - 1, b) ∧
      bytes b 0 (requiredSize t - 1)
        = renderDateTime y m d (localSod t) ++ renderFrac t.nsec.toNat
          ++ renderOffset t.offset := by
  obtain ⟨y, m, d, hymd, hvd, hrd, -⟩ := timestamp_format_ok dst len t hv hlen
  obtain ⟨b, hb, hbytes⟩ := format_text dst len t y m d hv hlen hymd
  exact ⟨y, m, d, b, hvd, hrd, hb, hbytes⟩

/-- C19: UTC outputs sort chronologically.  For valid timestamps `T1`, `T2` with
`offset = 0` and `nsec = 0`, formatted into sufficiently large buffers, `T1.sec < T2.sec` if
and only if the 20-byte output for `T1` is strictly smaller than the 20-byte output for `T2`
in bytewise lexicographic order. -/
theorem C19_utc_outputs_sort (dst1 dst2 : Buf) (len1 len2 : Nat) (t1 t2 : timestamp_t)
    (hv1 : validTimestamp t1) (hv2 : validTimestamp t2)
    (ho1 : t1.offset = 0) (hn1 : t1.nsec = 0) (ho2 : t2.offset = 0) (hn2 : t2.nsec = 0)
    (hl1 : 21 ≤ len1) (hl2 : 21 ≤ len2) :
    ∃ b1 b2, timestamp_format dst1 len1 t1 = some (20, b1) ∧
      timestamp_format dst2 len2 t2 = some (20, b2) ∧
      (t1.sec < t2.sec ↔ lexLt (bytes b1 0 20) (bytes b2 0 20) = true) := by
  have hR1 : requiredSize t1 = 21 := by simp [requiredSize, fracSize, ho1, hn1]
  have hR2 : requiredSize t2 = 21 := by simp [requiredSize, fracSize, ho2, hn2]
  obtain ⟨y1, m1, d1, b1, hvd1, hrd1, hf1, hb1⟩ :=
    format_render dst1 len1 t1 hv1 (by omega)
  obtain ⟨y2, m2, d2, b2, hvd2, hrd2, hf2, hb2⟩ :=
    format_render dst2 len2 t2 hv2 (by omega)
  rw [hR1] at hf1 hb1
  rw [hR2] at hf2 hb2
  rw [hn1, ho1] at hb1
  rw [hn2, ho2] at hb2
  refine ⟨b1, b2, hf1, hf2, ?_⟩
  obtain ⟨-, hsod1, -⟩ := valid_sec t1 hv1
  obtain ⟨-, hsod2, -⟩ := valid_sec t2 hv2
  obtain ⟨hday1, hso1⟩ := local_days_sod t1 hv1
  obtain ⟨hday2, hso2⟩ := local_days_sod t2 hv2
  obtain ⟨by1, bm1, bd1⟩ := validDate_bounds y1 m1 d1 hvd1
  obtain ⟨by2, bm2, bd2⟩ := validDate_bounds y2 m2 d2 hvd2
  have hdl := dateLt_iff_rataDie y1 m1 d1 y2 m2 d2 hvd1 hvd2
  have hinj : (y1 = y2 ∧ m1 = m2 ∧ d1 = d2) ↔ localDays t1 = localDays t2 := by
    constructor
    · rintro ⟨rfl, rfl, rfl⟩
      omega
    · intro he
      exact rataDie_inj y1 m1 d1 y2 m2 d2 hvd1 hvd2 (by rw [hrd1, hrd2, he])
  rw [hrd1, hrd2] at hdl
  rw [show (20 : Nat) = 21 - 1 from rfl, hb1, hb2]
  rw [show renderFrac (0 : Int).toNat = [] from rfl, show renderOffset 0 = [90] from rfl,
    List.append_nil, List.append_nil,
    lexLt_append _ _ _ _ (by rw [renderDateTime_length, renderDateTime_length]),
    lexLt_irrefl,
    renderDateTime_lexLt y1 m1 d1 _ y2 m2 d2 _ by1 by2 bm1 bm2 bd1 bd2 hsod1 hsod2]
  have hs1 : localSec t1 = t1.sec := by simp only [localSec, ho1]; omega
  have hs2 : localSec t2 = t2.sec := by simp only [localSec, ho2]; omega
  rw [hs1] at hday1 hso1
  rw [hs2] at hday2 hso2
  obtain ⟨hlo1, -⟩ := hv1
  obtain ⟨hlo2, -⟩ := hv2
  rw [hs1] at hlo1
  rw [hs2] at hlo2
  clear hb1 hb2 hf1 hf2 hrd1 hrd2 hvd1 hvd2
  generalize localDays t1 = D1 at *
  generalize localDays t2 = D2 at *
  generalize localSod t1 = S1 at *
  generalize localSod t2 = S2 at *
  constructor
  · intro hlt
    by_cases hD : D1 < D2
    · exact Or.inl (Or.inl (hdl.2 (by omega)))
    · have hDe : D1 = D2 := by omega
      have hf := hinj.2 hDe
      exact Or.inl (Or.inr ⟨hf.1, hf.2.1, hf.2.2, by omega⟩)
  · rintro ((hd | ⟨e1, e2, e3, hlt⟩) | ⟨-, hfalse⟩)
    · have := hdl.1 hd
      omega
    · have hDe := hinj.1 ⟨e1, e2, e3⟩
      omega
    · exact absurd hfalse (by decide)

/-- The fraction: a dot and `k` digits of `nsec / 10^(9-k)`, which give `nsec` back. -/
theorem renderFrac_value (nsec : Int) (h0 : 0 < nsec) (h1 : nsec ≤ 999999999) :
    ∃ k, fracSize nsec = k + 1 ∧ k ≤ 9 ∧
      renderFrac nsec.toNat = 46 :: pad k (nsec.toNat / 10 ^ (9 - k)) ∧
      (nsec.toNat / 10 ^ (9 - k)) * 10 ^ (9 - k) = nsec.toNat ∧
      nsec.toNat / 10 ^ (9 - k) < 10 ^ k := by
  have n1 : ¬ nsec.toNat = 0 := by omega
  have c1 : ¬ nsec = 0 := by omega
  by_cases c2 : nsec % 1000000 = 0
  · have n2 : nsec.toNat % 1000000 = 0 := by omega
    refine ⟨3, by simp only [fracSize, c1, c2, if_true, if_false], by omega, ?_, ?_, ?_⟩
    · simp only [renderFrac, n1, n2, if_true, if_false]
      rfl
    · simp only [Nat.reduceSub, Nat.reducePow]
      omega
    · simp only [Nat.reduceSub, Nat.reducePow]
      omega
  · have n2 : ¬ nsec.toNat % 1000000 = 0 := by omega
    by_cases c3 : nsec % 1000 = 0
    · have n3 : nsec.toNat % 1000 = 0 := by omega
      refine ⟨6, by simp only [fracSize, c1, c2, c3, if_true, if_false], by omega, ?_, ?_, ?_⟩
      · simp only [renderFrac, n1, n2, n3, if_true, if_false]
        rfl
      · simp only [Nat.reduceSub, Nat.reducePow]
        omega
      · simp only [Nat.reduceSub, Nat.reducePow]
        omega
    · have n3 : ¬ nsec.toNat % 1000 = 0 := by omega
      refine ⟨9, by simp only [fracSize, c1, c2, c3, if_true, if_false], by omega, ?_, ?_, ?_⟩
      · simp only [renderFrac, n1, n2, n3, if_true, if_false]
        simp
      · simp
      · simp only [Nat.reduceSub, Nat.reducePow, Nat.pow_zero, Nat.div_one]
        omega

theorem fracSize_zero_iff (nsec : Int) : fracSize nsec = 0 ↔ nsec = 0 := by
  simp only [fracSize]
  split_ifs <;> simp_all

theorem renderFrac_inj (n1 n2 : Int) (h1 : 0 ≤ n1) (h1' : n1 ≤ 999999999) (h2 : 0 ≤ n2)
    (h2' : n2 ≤ 999999999) (hsz : fracSize n1 = fracSize n2)
    (he : renderFrac n1.toNat = renderFrac n2.toNat) : n1 = n2 := by
  by_cases c1 : n1 = 0
  · have : fracSize n2 = 0 := by rw [← hsz, (fracSize_zero_iff n1).2 c1]
    rw [c1, (fracSize_zero_iff n2).1 this]
  · have c2 : n2 ≠ 0 := by
      intro c2
      have : fracSize n1 = 0 := by rw [hsz, (fracSize_zero_iff n2).2 c2]
      exact c1 ((fracSize_zero_iff n1).1 this)
    obtain ⟨k1, hk1, -, hr1, hx1, hlt1⟩ := renderFrac_value n1 (by omega) h1'
    obtain ⟨k2, hk2, -, hr2, hx2, hlt2⟩ := renderFrac_value n2 (by omega) h2'
    have hk : k1 = k2 := by omega
    subst hk
    rw [hr1, hr2] at he
    simp only [List.cons.injEq, true_and] at he
    have hq := pad_inj k1 _ _ hlt1 hlt2 he
    rw [hq, hx2] at hx1
    omega

theorem renderOffset_inj (o1 o2 : Int) (h1 : -1439 ≤ o1) (h1' : o1 ≤ 1439) (h2 : -1439 ≤ o2)
    (h2' : o2 ≤ 1439) (he : renderOffset o1 = renderOffset o2) : o1 = o2 := by
  have hl := congrArg List.length he
  rw [renderOffset_length, renderOffset_length] at hl
  by_cases c1 : o1 = 0
  · by_cases c2 : o2 = 0
    · rw [c1, c2]
    · rw [if_neg (by simpa using c1), if_pos c2] at hl
      omega
  · by_cases c2 : o2 = 0
    · rw [if_pos c1, if_neg (by simpa using c2)] at hl
      omega
    · simp only [renderOffset, if_neg c1, if_neg c2, pad, List.nil_append, List.cons_append,
        List.cons.injEq, and_true] at he
      obtain ⟨hs, e1, e2, e3, e4⟩ := he
      have hsign : (o1 < 0 ↔ o2 < 0) := by
        by_cases a1 : o1 < 0 <;> by_cases a2 : o2 < 0 <;> simp [a1, a2] at hs ⊢
      omega

/-- The rendering of a valid timestamp determines the timestamp. -/
theorem render_inj (t1 t2 : timestamp_t) (hv1 : validTimestamp t1) (hv2 : validTimestamp t2)
    (y1 m1 d1 y2 m2 d2 : Nat) (hvd1 : validDate y1 m1 d1) (hvd2 : validDate y2 m2 d2)
    (hrd1 : rataDie y1 m1 d1 = (localDays t1 : Int) + 1)
    (hrd2 : rataDie y2 m2 d2 = (localDays t2 : Int) + 1)
    (he : renderDateTime y1 m1 d1 (localSod t1) ++ renderFrac t1.nsec.toNat
        ++ renderOffset t1.offset
      = renderDateTime y2 m2 d2 (localSod t2) ++ renderFrac t2.nsec.toNat
        ++ renderOffset t2.offset) :
    t1.sec = t2.sec ∧ t1.nsec = t2.nsec ∧ t1.offset = t2.offset := by
  obtain ⟨-, hsod1, -⟩ := valid_sec t1 hv1
  obtain ⟨-, hsod2, -⟩ := valid_sec t2 hv2
  obtain ⟨hday1, hso1⟩ := local_days_sod t1 hv1
  obtain ⟨hday2, hso2⟩ := local_days_sod t2 hv2
  obtain ⟨by1, bm1, bd1⟩ := validDate_bounds y1 m1 d1 hvd1
  obtain ⟨by2, bm2, bd2⟩ := validDate_bounds y2 m2 d2 hvd2
  obtain ⟨hlo1, -, hn1, hn1', ho1, ho1'⟩ := hv1
  obtain ⟨hlo2, -, hn2, hn2', ho2, ho2'⟩ := hv2
  have hlen := congrArg List.length he
  simp only [List.length_append, renderDateTime_length, renderFrac_length _ hn1,
    renderFrac_length _ hn2, renderOffset_length] at hlen
  have hF1 : fracSize t1.nsec = 0 ∨ fracSize t1.nsec = 4 ∨ fracSize t1.nsec = 7 ∨
      fracSize t1.nsec = 10 := by
    simp only [fracSize]
    split_ifs <;> simp
  have hF2 : fracSize t2.nsec = 0 ∨ fracSize t2.nsec = 4 ∨ fracSize t2.nsec = 7 ∨
      fracSize t2.nsec = 10 := by
    simp only [fracSize]
    split_ifs <;> simp
  have hsz : fracSize t1.nsec = fracSize t2.nsec ∧
      (if t1.offset ≠ 0 then 6 else 1) = (if t2.offset ≠ 0 then 6 else 1) := by
    split_ifs at hlen ⊢ <;> omega
  obtain ⟨hDF, hO⟩ := List.append_inj' he
    (by rw [renderOffset_length, renderOffset_length, hsz.2])
  obtain ⟨hD, hF⟩ := List.append_inj hDF
    (by rw [renderDateTime_length, renderDateTime_length])
  have eo := renderOffset_inj _ _ ho1 ho1' ho2 ho2' hO
  have en := renderFrac_inj _ _ hn1 hn1' hn2 hn2' hsz.1 hF
  obtain ⟨ey, em, ed, es⟩ :=
    renderDateTime_inj y1 m1 d1 _ y2 m2 d2 _ by1 by2 bm1 bm2 bd1 bd2 hsod1 hsod2 hD
  subst ey
  subst em
  subst ed
  have eD : localDays t1 = localDays t2 := by omega
  refine ⟨?_, en, eo⟩
  simp only [localSec] at hday1 hday2 hso1 hso2 hlo1 hlo2
  omega

/-- C11: `timestamp_format` is injective on valid timestamps.  For valid timestamps `T1`,
`T2` formatted into sufficiently large buffers, equal output strings force `sec1 = sec2`,
`nsec1 = nsec2` and `offset1 = offset2`; equivalently some function `parse` satisfies
`parse (format T) = T` for every valid `T`. -/
theorem C11_format_injective (dst1 dst2 : Buf) (len1 len2 : Nat) (t1 t2 : timestamp_t)
    (hv1 : validTimestamp t1) (hv2 : validTimestamp t2)
    (hl1 : requiredSize t1 ≤ len1) (hl2 : requiredSize t2 ≤ len2) :
    (∃ n1 b1 n2 b2, timestamp_format dst1 len1 t1 = some (n1, b1) ∧
      timestamp_format dst2 len2 t2 = some (n2, b2) ∧
      (bytes b1 0 n1 = bytes b2 0 n2 →
        t1.sec = t2.sec ∧ t1.nsec = t2.nsec ∧ t1.offset = t2.offset)) ∧
    ∃ parse : List Nat → timestamp_t, ∀ (t : timestamp_t) (dst : Buf) (len : Nat),
      validTimestamp t → requiredSize t ≤ len →
        ∃ n b, timestamp_format dst len t = some (n, b) ∧ parse (bytes b 0 n) = t := by
  constructor
  · obtain ⟨y1, m1, d1, b1, hvd1, hrd1, hf1, hb1⟩ := format_render dst1 len1 t1 hv1 hl1
    obtain ⟨y2, m2, d2, b2, hvd2, hrd2, hf2, hb2⟩ := format_render dst2 len2 t2 hv2 hl2
    refine ⟨_, b1, _, b2, hf1, hf2, ?_⟩
    intro he
    rw [hb1, hb2] at he
    exact render_inj t1 t2 hv1 hv2 y1 m1 d1 y2 m2 d2 hvd1 hvd2 hrd1 hrd2 he
  · classical
    refine ⟨fun s => if h : ∃ t : timestamp_t, validTimestamp t ∧ ∃ y m d, validDate y m d ∧
        rataDie y m d = (localDays t : Int) + 1 ∧
        renderDateTime y m d (localSod t) ++ renderFrac t.nsec.toNat ++ renderOffset t.offset = s
      then Classical.choose h else ⟨0, 0, 0⟩, ?_⟩
    intro t dst len hv hlen
    obtain ⟨y, m, d, b, hvd, hrd, hf, hb⟩ := format_render dst len t hv hlen
    refine ⟨_, b, hf, ?_⟩
    have hex : ∃ t' : timestamp_t, validTimestamp t' ∧ ∃ y m d, validDate y m d ∧
        rataDie y m d = (localDays t' : Int) + 1 ∧
        renderDateTime y m d (localSod t') ++ renderFrac t'.nsec.toNat
          ++ renderOffset t'.offset = bytes b 0 (requiredSize t - 1) :=
      ⟨t, hv, y, m, d, hvd, hrd, hb.symm⟩
    beta_reduce
    rw [dif_pos hex]
    obtain ⟨hv', y', m', d', hvd', hrd', hb'⟩ := Classical.choose_spec hex
    obtain ⟨e1, e2, e3⟩ :=
      render_inj (Classical.choose hex) t hv' hv y' m' d' y m d hvd' hvd hrd' hrd
        (hb'.trans hb)
    generalize Classical.choose hex = t' at e1 e2 e3
    cases t'
    cases t
    simp only at e1 e2 e3
    rw [e1, e2, e3]

theorem C11_format_injective_witness :
    validTimestamp ⟨1700000000, 1000, -330⟩ ∧ validTimestamp ⟨1700019800, 1000, 0⟩ ∧
    requiredSize ⟨1700000000, 1000, -330⟩ ≤ 40 ∧ requiredSize ⟨1700019800, 1000, 0⟩ ≤ 64 ∧
    ((∃ n1 b1 n2 b2,
      timestamp_format (fun _ => 35) 40 ⟨1700000000, 1000, -330⟩ = some (n1, b1) ∧
      timestamp_format (fun _ => 0) 64 ⟨1700019800, 1000, 0⟩ = some (n2, b2) ∧
      (bytes b1 0 n1 = bytes b2 0 n2 →
        (1700000000 : Int) = 1700019800 ∧ (1000 : Int) = 1000 ∧ (-330 : Int) = 0)) ∧
    ∃ parse : List Nat → timestamp_t, ∀ (t : timestamp_t) (dst : Buf) (len : Nat),
      validTimestamp t → requiredSize t ≤ len →
        ∃ n b, timestamp_format dst len t = some (n, b) ∧ parse (bytes b 0 n) = t) :=
  ⟨by decide, by decide, by decide, by decide,
    C11_format_injective (fun _ => 35) (fun _ => 0) 40 64 ⟨1700000000, 1000, -330⟩
      ⟨1700019800, 1000, 0⟩ (by decide) (by decide) (by decide) (by decide)⟩

theorem C19_utc_outputs_sort_witness :
    validTimestamp ⟨951782399, 0, 0⟩ ∧ validTimestamp ⟨951782400, 0, 0⟩ ∧
    (0 : Int) = 0 ∧ (0 : Int) = 0 ∧ (0 : Int) = 0 ∧ (0 : Int) = 0 ∧ 21 ≤ 21 ∧ 21 ≤ 40 ∧
    ∃ b1 b2, timestamp_format (fun _ => 35) 21 ⟨951782399, 0, 0⟩ = some (20, b1) ∧
      timestamp_format (fun _ => 0) 40 ⟨951782400, 0, 0⟩ = some (20, b2) ∧
      ((951782399 : Int) < 951782400 ↔ lexLt (bytes b1 0 20) (bytes b2 0 20) = true) :=
  ⟨by decide, by decide, by decide, by decide, by decide, by decide, by decide, by decide,
    C19_utc_outputs_sort (fun _ => 35) (fun _ => 0) 21 40 ⟨951782399, 0, 0⟩ ⟨951782400, 0, 0⟩
      (by decide) (by decide) rfl rfl rfl rfl (by decide) (by decide)⟩

end CTimestamp
